import Mathlib

/-!
Verification development for `scripts/generate_8b10b_mem_files.py`.

The script is embedded shallowly: strings are `List Char`, Python dicts are
insertion-ordered association lists, Python lists are Lean lists, and the
exceptions a run can raise are modelled with `Option`/`Except`.  The
definitions below follow the Python source line by line; Python's builtin
behaviours (`str.strip`, `str.split`, `int(s, base)`, `format(v, '08b')`,
negative list indexing) are modelled explicitly for the ASCII inputs the
script manipulates.
-/

set_option maxRecDepth 100000

namespace Gen8b10b

/-- ASCII whitespace recognised by Python's `str.strip` / `str.split`
(the script's input is ASCII text). -/
def isPySpace (c : Char) : Bool :=
  c = ' ' || c = '\t' || c = '\n' || c = '\r' || c = '\x0b' || c = '\x0c'

/-- Python `str.strip()`: drop leading and trailing whitespace. -/
def pyStrip (cs : List Char) : List Char :=
  (((cs.dropWhile isPySpace).reverse).dropWhile isPySpace).reverse

/-- Worker for `pySplit`: `acc` holds the (reversed) current token. -/
def pySplitAux : List Char → List Char → List (List Char)
  | [], acc => if acc.isEmpty then [] else [acc.reverse]
  | c :: cs, acc =>
    if isPySpace c then
      if acc.isEmpty then pySplitAux cs []
      else acc.reverse :: pySplitAux cs []
    else pySplitAux cs (c :: acc)

/-- Python `str.split()` with no argument: split on runs of whitespace,
producing no empty tokens. -/
def pySplit (cs : List Char) : List (List Char) :=
  pySplitAux cs []

/-- Value of one hexadecimal digit (`int(_, 16)` digits). -/
def digitVal16 (c : Char) : Option Nat :=
  if '0' ≤ c ∧ c ≤ '9' then some (c.toNat - '0'.toNat)
  else if 'a' ≤ c ∧ c ≤ 'f' then some (c.toNat - 'a'.toNat + 10)
  else if 'A' ≤ c ∧ c ≤ 'F' then some (c.toNat - 'A'.toNat + 10)
  else none

/-- Value of one binary digit (`int(_, 2)` digits). -/
def digitVal2 (c : Char) : Option Nat :=
  if c = '0' then some 0 else if c = '1' then some 1 else none

/-- Digits of a Python integer literal after the first digit: single
underscores are allowed, but only between digits. -/
def pyDigitsAux (dv : Char → Option Nat) (b : Nat) : Nat → List Char → Option Nat
  | acc, [] => some acc
  | acc, c :: rest =>
    if c = '_' then
      match rest with
      | [] => none
      | c2 :: rest2 =>
        match dv c2 with
        | some d => pyDigitsAux dv b (acc * b + d) rest2
        | none => none
    else
      match dv c with
      | some d => pyDigitsAux dv b (acc * b + d) rest
      | none => none

/-- A nonempty digit string (underscores only between digits). -/
def pyDigits (dv : Char → Option Nat) (b : Nat) : List Char → Option Nat
  | [] => none
  | c :: rest =>
    match dv c with
    | some d => pyDigitsAux dv b d rest
    | none => none

/-- Digit part of `int(s, b)` after the sign: an optional `0x`/`0b`-style
base marker (with an optional single underscore after it), then digits. -/
def pyIntFrom (dv : Char → Option Nat) (b : Nat) (marks : List Char)
    (cs : List Char) : Option Nat :=
  match cs with
  | '0' :: p :: rest =>
    if p ∈ marks then
      match rest with
      | '_' :: rest2 => pyDigits dv b rest2
      | _ => pyDigits dv b rest
    else pyDigits dv b cs
  | _ => pyDigits dv b cs

/-- Python `int(s, b)` for an ASCII string: strip whitespace, optional
sign, optional base marker, digits with single underscores between them.
`none` models the `ValueError` Python raises on malformed input. -/
def pyIntStr (dv : Char → Option Nat) (b : Nat) (marks : List Char)
    (cs : List Char) : Option Int :=
  match pyStrip cs with
  | '+' :: rest => (pyIntFrom dv b marks rest).map (fun n => (n : Int))
  | '-' :: rest => (pyIntFrom dv b marks rest).map (fun n => -(n : Int))
  | rest => (pyIntFrom dv b marks rest).map (fun n => (n : Int))

/-- `int(s, 16)`. -/
def pyInt16 (cs : List Char) : Option Int :=
  pyIntStr digitVal16 16 ['x', 'X'] cs

/-- `int(s, 2)`. -/
def pyInt2 (cs : List Char) : Option Int :=
  pyIntStr digitVal2 2 ['b', 'B'] cs

/-- Binary representation of a natural number (`format(n, 'b')`),
via the digit expansion from the core library. -/
def natBin (n : Nat) : List Char :=
  Nat.toDigits 2 n

/-- Pad a string on the left with `c` up to width `w`. -/
def leftPad (c : Char) (w : Nat) (s : List Char) : List Char :=
  List.replicate (w - s.length) c ++ s

/-- Python `format(v, '08b')`: binary, zero-padded to total width 8;
for a negative number the sign counts towards the width. -/
def pyFormat08b (v : Int) : List Char :=
  if v < 0 then '-' :: leftPad '0' 7 (natBin v.natAbs)
  else leftPad '0' 8 (natBin v.natAbs)

/-- Insertion-ordered dictionary, modelling a Python `dict`: an
association list whose keys are unique; updating an existing key keeps
its position, a new key is appended. -/
abbrev Dict (κ α : Type) : Type := List (κ × α)

/-- `d[k] = v` on a Python dict. -/
def dictInsert {κ α : Type} [DecidableEq κ] : Dict κ α → κ → α → Dict κ α
  | [], k, v => [(k, v)]
  | (k', v') :: rest, k, v =>
    if k' = k then (k, v) :: rest else (k', v') :: dictInsert rest k v

/-- `d.get(k)` on a Python dict. -/
def dictGet {κ α : Type} [DecidableEq κ] : Dict κ α → κ → Option α
  | [], _ => none
  | (k', v') :: rest, k => if k' = k then some v' else dictGet rest k

/-- One parsed code-group record, as stored in `data_codes` / `ctrl_codes`
(`code_info` in the script). -/
structure CodeInfo where
  rd_neg : List Char
  rd_pos : List Char
  name : List Char
deriving DecidableEq

/-- The two tables built by `parse_code_groups_file`. -/
structure Tables where
  data_codes : Dict Int CodeInfo
  ctrl_codes : Dict Int CodeInfo
deriving DecidableEq

/-- The loop body of `parse_code_groups_file` for one input line.
`Except.error ()` models an exception escaping the loop (caught by the
function's `except` clause); `.ok` continues with the updated tables. -/
def processLine (st : Tables) (rawLine : List Char) : Except Unit Tables :=
  match pyStrip rawLine with
  | [] => .ok st
  | c :: _ =>
    if c = '#' then .ok st
    else
      match pySplit (pyStrip rawLine) with
      | [code_name, octet_hex, rd_neg_abcdei, rd_neg_fghj, rd_pos_abcdei, rd_pos_fghj] =>
        let rd_neg_code := rd_neg_abcdei ++ rd_neg_fghj
        let rd_pos_code := rd_pos_abcdei ++ rd_pos_fghj
        match pyInt16 octet_hex with
        | none => .error ()
        | some octet_val =>
          let code_info : CodeInfo :=
            { rd_neg := rd_neg_code, rd_pos := rd_pos_code, name := code_name }
          match code_name with
          | 'D' :: _ =>
            .ok { st with data_codes := dictInsert st.data_codes octet_val code_info }
          | 'K' :: _ =>
            .ok { st with ctrl_codes := dictInsert st.ctrl_codes octet_val code_info }
          | _ => .ok st
      | _ => .ok st

/-- `parse_code_groups_file`, with the input file given as its list of
lines.  `none` models the `None, None` return after a caught exception
(the only exception the loop can raise is the `ValueError` from
`int(octet_hex, 16)`). -/
def parse_code_groups_file (lines : List (List Char)) :
    Option (Dict Int CodeInfo × Dict Int CodeInfo) :=
  match lines.foldlM processLine { data_codes := [], ctrl_codes := [] } with
  | .ok st => some (st.data_codes, st.ctrl_codes)
  | .error _ => none

/-- Python list assignment `l[i] = v` with negative-index wraparound;
`none` models the `IndexError` raised when `i` is out of range. -/
def pySet {α : Type} (l : List α) (i : Int) (v : α) : Option (List α) :=
  let j : Int := if i < 0 then i + l.length else i
  if 0 ≤ j ∧ j < l.length then some (l.set j.toNat v) else none

/-- The default all-zero 10-bit entry. -/
def zeros10 : List Char := "0000000000".toList

/-- The four dense 256-entry encoder arrays. -/
structure EncArrays where
  data_rd_neg : List (List Char)
  data_rd_pos : List (List Char)
  ctrl_rd_neg : List (List Char)
  ctrl_rd_pos : List (List Char)
deriving DecidableEq

/-- The fill loops of `write_encoder_mem_files`: one pass over a table,
writing both disparity arrays at index `octet`. -/
def encFillLoop : List (Int × CodeInfo) → List (List Char) × List (List Char) →
    Option (List (List Char) × List (List Char))
  | [], arrs => some arrs
  | (octet, info) :: rest, (an, ap) =>
    match pySet an octet info.rd_neg with
    | none => none
    | some an' =>
      match pySet ap octet info.rd_pos with
      | none => none
      | some ap' => encFillLoop rest (an', ap')

/-- The array-building part of `write_encoder_mem_files` (the file writes
are modelled separately by `encFileContent`).  `none` models an
`IndexError` escaping the function. -/
def write_encoder_mem_files (data_codes ctrl_codes : Dict Int CodeInfo) :
    Option EncArrays :=
  match encFillLoop data_codes (List.replicate 256 zeros10, List.replicate 256 zeros10) with
  | none => none
  | some (dn, dp) =>
    match encFillLoop ctrl_codes (List.replicate 256 zeros10, List.replicate 256 zeros10) with
    | none => none
    | some (cn, cp) =>
      some { data_rd_neg := dn, data_rd_pos := dp, ctrl_rd_neg := cn, ctrl_rd_pos := cp }

/-- One entry of the decoder reverse-lookup dicts. -/
structure DecInfo where
  data : Int
  is_control : Bool
deriving DecidableEq

/-- One of the two lookup-building loops of `write_decoder_mem_files`:
a pass over one table inserting into both per-disparity reverse dicts. -/
def decLookupLoop (isC : Bool) : List (Int × CodeInfo) →
    Dict (List Char) DecInfo × Dict (List Char) DecInfo →
    Dict (List Char) DecInfo × Dict (List Char) DecInfo
  | [], lks => lks
  | (octet, info) :: rest, (ln, lp) =>
    decLookupLoop isC rest
      (dictInsert ln info.rd_neg { data := octet, is_control := isC },
       dictInsert lp info.rd_pos { data := octet, is_control := isC })

/-- The packed decoder entry `valid_bit + control_bit + data_bits`. -/
def packEntry (info : DecInfo) : List Char :=
  '1' :: (if info.is_control then '1' else '0') :: pyFormat08b info.data

/-- One decode-table fill loop: for each reverse-lookup entry, convert the
code string with `int(_, 2)` (a `ValueError` is modelled by `none`), and
write the packed entry when `code_int < 1024`. -/
def decFillLoop : List (List Char × DecInfo) → List (List Char) →
    Option (List (List Char))
  | [], arr => some arr
  | (code_str, info) :: rest, arr =>
    match pyInt2 code_str with
    | none => none
    | some code_int =>
      if code_int < 1024 then
        match pySet arr code_int (packEntry info) with
        | none => none
        | some arr' => decFillLoop rest arr'
      else decFillLoop rest arr

/-- The array-building part of `write_decoder_mem_files` (file writes are
modelled by `decFileContent`).  `none` models an uncaught exception. -/
def write_decoder_mem_files (data_codes ctrl_codes : Dict Int CodeInfo) :
    Option (List (List Char) × List (List Char)) :=
  let lks := decLookupLoop false data_codes ([], [])
  let lks2 := decLookupLoop true ctrl_codes lks
  match decFillLoop lks2.1 (List.replicate 1024 zeros10) with
  | none => none
  | some dn =>
    match decFillLoop lks2.2 (List.replicate 1024 zeros10) with
    | none => none
    | some dp => some (dn, dp)

/-- `entry + "\n"` for each array entry, concatenated (the write loop
`for addr, code in enumerate(data_array): f.write(f"{code}\n")`). -/
def joinNl (arr : List (List Char)) : List Char :=
  arr.foldr (fun e acc => e ++ '\n' :: acc) []

/-- Content of one encoder `.mem` file: the two header comment lines (the
second write ends in a double newline) followed by the entries. -/
def encFileContent (filename : List Char) (arr : List (List Char)) : List Char :=
  "// ".toList ++ filename ++ " - Generated from 8b_10b_code_groups_pcs.txt\n".toList
    ++ "// Format: 10-bit binary code groups\n\n".toList
    ++ joinNl arr

/-- Content of one decoder `.mem` file: three header comment lines (the
third write ends in a double newline) followed by the entries. -/
def decFileContent (filename : List Char) (arr : List (List Char)) : List Char :=
  "// ".toList ++ filename ++ " - Generated from 8b_10b_code_groups_pcs.txt\n".toList
    ++ "// Format: \x7bvalid_bit, control_bit, 8bit_data\x7d\n".toList
    ++ "// Address range: 0-1023 (10-bit code group value)\n\n".toList
    ++ joinNl arr

/-- Split a character list at every newline. -/
def splitNl : List Char → List (List Char)
  | [] => [[]]
  | c :: rest =>
    let r := splitNl rest
    if c = '\n' then [] :: r
    else
      match r with
      | [] => [[c]]
      | h :: t => (c :: h) :: t

/-- The lines of a newline-terminated file content (drops the empty
segment after the final newline, as a text editor or Python's
`splitlines` would). -/
def fileLines (cs : List Char) : List (List Char) :=
  (splitNl cs).dropLast

/-- One run of `main`, with the input file given as its lines.  Returns
the `.mem` artifacts written, in order, paired with `true` when the run
finished without any reported failure: a parse failure reports and exits
with no artifacts; an `IndexError` during encoder-array filling crashes
before any artifact is written; an exception during decoder-table
construction crashes after the four encoder artifacts are on disk. -/
def runFiles (lines : List (List Char)) :
    List (List Char × List Char) × Bool :=
  match parse_code_groups_file lines with
  | none => ([], false)
  | some (data_codes, ctrl_codes) =>
    match write_encoder_mem_files data_codes ctrl_codes with
    | none => ([], false)
    | some arrs =>
      let encFs :=
        [("data_table_rd_neg.mem".toList, encFileContent ("data_table_rd_neg.mem".toList) arrs.data_rd_neg),
         ("data_table_rd_pos.mem".toList, encFileContent ("data_table_rd_pos.mem".toList) arrs.data_rd_pos),
         ("ctrl_table_rd_neg.mem".toList, encFileContent ("ctrl_table_rd_neg.mem".toList) arrs.ctrl_rd_neg),
         ("ctrl_table_rd_pos.mem".toList, encFileContent ("ctrl_table_rd_pos.mem".toList) arrs.ctrl_rd_pos)]
      match write_decoder_mem_files data_codes ctrl_codes with
      | none => (encFs, false)
      | some (dn, dp) =>
        (encFs ++
          [("decode_table_rd_neg.mem".toList, decFileContent ("decode_table_rd_neg.mem".toList) dn),
           ("decode_table_rd_pos.mem".toList, decFileContent ("decode_table_rd_pos.mem".toList) dp)],
         true)

/-! ### Predicates and helper functions used by the theorem statements -/

/-- A character of a well-formed code-group bit-string. -/
def isBit (c : Char) : Bool := c = '0' || c = '1'

/-- A well-formed 10-bit code-group string: exactly 10 characters of
'0'/'1'. -/
def isBitStr10 (s : List Char) : Bool := s.length = 10 && s.all isBit

/-- The keys of a dictionary are pairwise distinct (every dict the script
builds satisfies this by construction). -/
@[reducible] def NodupKeys {κ α : Type} (d : Dict κ α) : Prop := (d.map Prod.fst).Nodup

/-- Both disparity codes of every record of a table are well-formed
10-bit strings. -/
@[reducible] def codesOk (t : Dict Int CodeInfo) : Prop :=
  ∀ kv ∈ t, isBitStr10 kv.2.rd_neg ∧ isBitStr10 kv.2.rd_pos

/-- Every key of a table is a legal octet value. -/
@[reducible] def keysInRange (t : Dict Int CodeInfo) : Prop :=
  ∀ kv ∈ t, 0 ≤ kv.1 ∧ kv.1 < 256

/-- The unsigned value of a bit-string, most significant bit first. -/
def bitsVal (s : List Char) : Nat :=
  s.foldl (fun a c => 2 * a + (if c = '1' then 1 else 0)) 0

/-- Folding a list of key/value pairs into a dict by repeated insertion
(the shape of every dict-building loop of the script). -/
def insFold {κ α : Type} [DecidableEq κ] (init : Dict κ α) (l : List (κ × α)) :
    Dict κ α :=
  l.foldl (fun d kv => dictInsert d kv.1 kv.2) init

/-- The table selected by `isCtrl`: `ctrl_codes` when true, `data_codes`
when false. -/
def tableOf (isCtrl : Bool) (st : Tables) : Dict Int CodeInfo :=
  if isCtrl then st.ctrl_codes else st.data_codes

/-- Which table a line inserts into and under which key, if any: a
non-comment, non-blank, 6-token record whose octet field parses stores
its record at the octet value, in `data_codes` for a 'D' name (`false`)
or `ctrl_codes` for a 'K' name (`true`). -/
def lineKey (l : List Char) : Option (Bool × Int) :=
  match pyStrip l with
  | [] => none
  | c :: _ =>
    if c = '#' then none
    else
      match pySplit (pyStrip l) with
      | [code_name, octet_hex, _, _, _, _] =>
        match pyInt16 octet_hex with
        | some v =>
          match code_name with
          | 'D' :: _ => some (false, v)
          | 'K' :: _ => some (true, v)
          | _ => none
        | none => none
      | _ => none

/-- The value of the last entry of an association list carrying a given
key, if any (used to characterize repeated dictionary insertion). -/
def lastVal {κ α : Type} [DecidableEq κ] : List (κ × α) → κ → Option α
  | [], _ => none
  | (k', v) :: rest, k =>
    match lastVal rest k with
    | some v' => some v'
    | none => if k' = k then some v else none

/-- The key under which a line inserts into the table selected by
`isCtrl`, if any. -/
def lineKeyFor (isCtrl : Bool) (l : List Char) : Option Int :=
  match lineKey l with
  | some (b, v) => if b = isCtrl then some v else none
  | none => none

/-- Whether a line raises the `ValueError` that aborts the parse: a
non-comment, non-blank, 6-token record whose octet field is not valid
base-16. -/
def lineAborts (l : List Char) : Bool :=
  match pyStrip l with
  | [] => false
  | c :: _ =>
    if c = '#' then false
    else
      match pySplit (pyStrip l) with
      | [_, octet_hex, _, _, _, _] => (pyInt16 octet_hex).isNone
      | _ => false

/-- The record a 6-token line would store: neg code = 3rd ++ 4th token,
pos code = 5th ++ 6th token, name = 1st token. -/
def lineRecord (l : List Char) : Option CodeInfo :=
  match pySplit (pyStrip l) with
  | [code_name, _, a, b, c, d] =>
    some { rd_neg := a ++ b, rd_pos := c ++ d, name := code_name }
  | _ => none

/-- A line's disparity tokens are well-formed: whenever the line is a
6-token record, tokens 3–6 are bit-strings of lengths 6, 4, 6, 4. -/
def lineTokensOk (l : List Char) : Bool :=
  match pySplit (pyStrip l) with
  | [_, _, a, b, c, d] =>
    a.length == 6 && b.length == 4 && c.length == 6 && d.length == 4 &&
      a.all isBit && b.all isBit && c.all isBit && d.all isBit
  | _ => true

/-- The reverse-lookup entries contributed by one table under one
disparity selector: code string paired with octet and control flag. -/
abbrev lookupList (sel : CodeInfo → List Char) (isC : Bool)
    (t : Dict Int CodeInfo) : List (List Char × DecInfo) :=
  t.map (fun kv => (sel kv.2, { data := kv.1, is_control := isC }))

/-- Input for the corrected-claim counterexamples: a data line and a
control line that share the negative-disparity code `1100100101`. -/
def collisionInput : List (List Char) :=
  ["D12.3 0C 110010 0101 001101 0101".toList,
   "K28.0 1C 110010 0101 001011 0100".toList]

/-- Input whose disparity field `1_0010` is not a bit-string but is
accepted by `int(_, 2)` thanks to Python's underscore-in-literal rule. -/
def underscoreInput : List (List Char) :=
  ["D12.3 0C 1_0010 0101 001101 0101".toList]

/-- Input whose octet field `-1` parses to a negative key. -/
def negOctetInput : List (List Char) :=
  ["D00.0 -1 110010 0101 001101 0101".toList]

/-- Input whose 3rd token has 5 characters, so the stored code has 9. -/
def shortCodeInput : List (List Char) :=
  ["D05.0 05 11001 0101 001101 0101".toList]

/-- Input whose octet field `100` parses to 256, outside [0,255]. -/
def bigOctetInput : List (List Char) :=
  ["D00.0 100 110010 0101 001101 0101".toList]

/-! ## Lemmas about `pySplit` and `pyStrip` -/

theorem pySplitAux_append_space {c : Char} (hc : isPySpace c = true)
    (cs : List Char) : ∀ acc, pySplitAux (cs ++ [c]) acc = pySplitAux cs acc := by
  induction cs with
  | nil =>
    intro acc
    cases acc <;> simp [pySplitAux, hc]
  | cons d cs ih =>
    intro acc
    by_cases hd : isPySpace d = true <;>
      simp [pySplitAux, hd, ih]

theorem pySplit_cons_space {c : Char} {cs : List Char}
    (hc : isPySpace c = true) : pySplit (c :: cs) = pySplit cs := by
  simp [pySplit, pySplitAux, hc]

theorem pySplit_dropWhile (cs : List Char) :
    pySplit (cs.dropWhile isPySpace) = pySplit cs := by
  induction cs with
  | nil => rfl
  | cons c cs ih =>
    by_cases hc : isPySpace c = true
    · simpa [List.dropWhile_cons, hc, pySplit_cons_space hc] using ih
    · simp [List.dropWhile_cons, hc]

theorem pySplit_dropTrailing (l : List Char) :
    pySplit ((l.reverse.dropWhile isPySpace).reverse) = pySplit l := by
  induction l using List.reverseRecOn with
  | nil => rfl
  | append_singleton l c ih =>
    by_cases hc : isPySpace c = true
    · rw [List.reverse_append]
      simp only [List.reverse_singleton, List.singleton_append,
        List.dropWhile_cons, hc, if_pos]
      rw [ih]
      exact (pySplitAux_append_space hc l []).symm
    · rw [List.reverse_append]
      simp [List.dropWhile_cons, hc]

theorem pySplit_pyStrip (l : List Char) : pySplit (pyStrip l) = pySplit l := by
  unfold pyStrip
  rw [pySplit_dropTrailing (l.dropWhile isPySpace), pySplit_dropWhile]

theorem pyStrip_ne_nil_of_split_ne_nil {l : List Char}
    (h : pySplit l ≠ []) : pyStrip l ≠ [] := by
  intro hnil
  apply h
  rw [← pySplit_pyStrip l, hnil]
  rfl

/-! ## Behaviour of `processLine` on skipped and aborting lines -/

theorem processLine_skip_of_tokens {l : List Char}
    (h : (pySplit l).length ≠ 6) (st : Tables) : processLine st l = .ok st := by
  unfold processLine
  split
  · rfl
  · split
    · rfl
    · split
      · rename_i heq
        exact absurd (by rw [← pySplit_pyStrip l, heq]; rfl) h
      · rfl

theorem foldlM_processLine_append (lines₁ lines₂ : List (List Char)) (st : Tables) :
    List.foldlM processLine st (lines₁ ++ lines₂) =
      List.foldlM processLine st lines₁ >>= fun st' =>
        List.foldlM processLine st' lines₂ := by
  induction lines₁ generalizing st with
  | nil => simp
  | cons l ls ih => simp only [List.cons_append, List.foldlM_cons, ih, bind_assoc]

theorem foldlM_processLine_error {l : List Char}
    (hl : ∀ st, processLine st l = .error ()) :
    ∀ (lines : List (List Char)) (st : Tables), l ∈ lines →
      List.foldlM processLine st lines = .error () := by
  intro lines
  induction lines with
  | nil => intro st h; cases h
  | cons a as ih =>
    intro st hmem
    rw [List.foldlM_cons]
    rcases List.mem_cons.mp hmem with rfl | hmem'
    · rw [hl st]; rfl
    · cases ha : processLine st a with
      | error e => rfl
      | ok st' =>
        show List.foldlM processLine st' as = Except.error ()
        exact ih st' hmem'

theorem processLine_error_of_bad_hex {l n hx a b c2 d2 : List Char}
    (hsplit : pySplit l = [n, hx, a, b, c2, d2])
    (hcomment : (pyStrip l).head? ≠ some '#')
    (hhex : pyInt16 hx = none) (st : Tables) :
    processLine st l = .error () := by
  have hsplit' : pySplit (pyStrip l) = [n, hx, a, b, c2, d2] := by
    rw [pySplit_pyStrip]; exact hsplit
  have hne : pyStrip l ≠ [] :=
    pyStrip_ne_nil_of_split_ne_nil (by rw [hsplit]; simp)
  unfold processLine
  split
  · rename_i heq; exact absurd heq hne
  · rename_i c rest heq
    have hc : ¬ c = '#' := by
      intro hcc
      exact hcomment (by rw [heq, hcc]; rfl)
    rw [if_neg hc]
    split
    · rename_i heq2
      rw [hsplit'] at heq2
      injection heq2 with h1 heq2
      injection heq2 with h2 heq2
      rw [← h2, hhex]
    · rename_i hno
      exact absurd hsplit' (hno n hx a b c2 d2)

/-! ## Claim C3 -/

/-- C3: for every input containing a (non-comment, 6-token) line whose
octetHex field is not valid hexadecimal, the run aborts with a reported
parse failure and zero output artifacts are written. -/
theorem c3_bad_hex_aborts (lines : List (List Char)) (l n hx a b c2 d2 : List Char)
    (hmem : l ∈ lines)
    (hsplit : pySplit l = [n, hx, a, b, c2, d2])
    (hcomment : (pyStrip l).head? ≠ some '#')
    (hhex : pyInt16 hx = none) :
    parse_code_groups_file lines = none ∧ runFiles lines = ([], false) := by
  have hparse : parse_code_groups_file lines = none := by
    unfold parse_code_groups_file
    rw [foldlM_processLine_error
      (processLine_error_of_bad_hex hsplit hcomment hhex) lines _ hmem]
  refine ⟨hparse, ?_⟩
  unfold runFiles
  rw [hparse]

/-- Witness for C3 at the spec's own example, octetHex = `ZZ`. -/
theorem c3_bad_hex_aborts_witness :
    (("D00.0 ZZ 110010 0101 001101 0101".toList) ∈
        ["D00.0 ZZ 110010 0101 001101 0101".toList]) ∧
    pySplit ("D00.0 ZZ 110010 0101 001101 0101".toList) =
      ["D00.0".toList, "ZZ".toList, "110010".toList, "0101".toList,
       "001101".toList, "0101".toList] ∧
    pyInt16 ("ZZ".toList) = none ∧
    (parse_code_groups_file ["D00.0 ZZ 110010 0101 001101 0101".toList] = none ∧
      runFiles ["D00.0 ZZ 110010 0101 001101 0101".toList] = ([], false)) :=
  ⟨by decide, by decide, by decide,
    c3_bad_hex_aborts ["D00.0 ZZ 110010 0101 001101 0101".toList]
      ("D00.0 ZZ 110010 0101 001101 0101".toList) ("D00.0".toList) ("ZZ".toList)
      ("110010".toList) ("0101".toList) ("001101".toList) ("0101".toList)
      (by decide) (by decide) (by decide) (by decide)⟩

/-! ## Claim C8 -/

/-- C8: any input line that does not split on whitespace into exactly 6
tokens is silently skipped: it leaves the tables unchanged, and removing
it from the input does not change the parse result (no abort, no error). -/
theorem c8_wrong_token_count_skipped (l : List Char)
    (h : (pySplit l).length ≠ 6) :
    (∀ st : Tables, processLine st l = .ok st) ∧
    (∀ pre post : List (List Char),
      parse_code_groups_file (pre ++ l :: post) =
        parse_code_groups_file (pre ++ post)) := by
  refine ⟨processLine_skip_of_tokens h, fun pre post => ?_⟩
  have hstep : ∀ st : Tables,
      List.foldlM processLine st (l :: post) = List.foldlM processLine st post := by
    intro st
    rw [List.foldlM_cons, processLine_skip_of_tokens h st]
    rfl
  have hfold : List.foldlM processLine
        ({ data_codes := [], ctrl_codes := [] } : Tables) (pre ++ l :: post) =
      List.foldlM processLine
        ({ data_codes := [], ctrl_codes := [] } : Tables) (pre ++ post) := by
    rw [foldlM_processLine_append, foldlM_processLine_append]
    exact bind_congr hstep
  unfold parse_code_groups_file
  rw [hfold]

/-- Witness for C8 at a 5-token line, inside a one-good-line input. -/
theorem c8_wrong_token_count_skipped_witness :
    (pySplit ("D05.2 45 100110 0101 011001".toList)).length ≠ 6 ∧
    ((∀ st : Tables,
        processLine st ("D05.2 45 100110 0101 011001".toList) = .ok st) ∧
     (∀ pre post : List (List Char),
        parse_code_groups_file (pre ++ ("D05.2 45 100110 0101 011001".toList) :: post) =
          parse_code_groups_file (pre ++ post))) :=
  ⟨by decide, c8_wrong_token_count_skipped _ (by decide)⟩

/-! ## A characterization of `processLine` via `lineKey` / `lineRecord` -/

theorem processLine_eq (st : Tables) (l : List Char) :
    processLine st l =
      if lineAborts l = true then .error ()
      else
        match lineKey l, lineRecord l with
        | some (false, k), some info =>
            .ok { st with data_codes := dictInsert st.data_codes k info }
        | some (true, k), some info =>
            .ok { st with ctrl_codes := dictInsert st.ctrl_codes k info }
        | _, _ => .ok st := by
  unfold processLine lineAborts lineKey lineRecord
  generalize pyStrip l = s
  rcases s with _ | ⟨c, rest⟩
  · simp
  · by_cases hc : c = '#'
    · subst hc; simp
    · simp only [if_neg hc]
      generalize pySplit (c :: rest) = ps
      rcases ps with _ | ⟨t0, _ | ⟨t1, _ | ⟨t2, _ | ⟨t3, _ | ⟨t4, _ | ⟨t5, _ | ⟨t6, ts⟩⟩⟩⟩⟩⟩⟩
      · simp
      · simp
      · simp
      · simp
      · simp
      · simp
      · rcases hint : pyInt16 t1 with _ | v
        · simp [hint]
        · rcases t0 with _ | ⟨ch, tl⟩
          · simp [hint]
          · by_cases hD : ch = 'D'
            · subst hD; simp [hint]
            · by_cases hK : ch = 'K'
              · subst hK; simp [hint]
              · simp [hint, hD, hK]
      · simp

/-! ## Dictionary lemmas -/

theorem dictGet_insert_self {κ α : Type} [DecidableEq κ]
    (d : Dict κ α) (k : κ) (v : α) :
    dictGet (dictInsert d k v) k = some v := by
  induction d with
  | nil => simp [dictInsert, dictGet]
  | cons kv rest ih =>
    obtain ⟨k', v'⟩ := kv
    by_cases h : k' = k <;> simp [dictInsert, dictGet, h, ih]

theorem dictGet_insert_ne {κ α : Type} [DecidableEq κ]
    (d : Dict κ α) {k k' : κ} (v : α) (h : k ≠ k') :
    dictGet (dictInsert d k v) k' = dictGet d k' := by
  induction d with
  | nil => simp [dictInsert, dictGet, h]
  | cons kv rest ih =>
    obtain ⟨k0, v0⟩ := kv
    by_cases h0 : k0 = k <;> by_cases h1 : k0 = k' <;>
      simp_all [dictInsert, dictGet]

/-! ## Structural facts about `lineKey`, `lineKeyFor`, `lineRecord` -/

theorem lineKey_of_lineKeyFor {b : Bool} {l : List Char} {k : Int}
    (h : lineKeyFor b l = some k) : lineKey l = some (b, k) := by
  unfold lineKeyFor at h
  rcases hlk : lineKey l with _ | ⟨b', v⟩
  · rw [hlk] at h; cases h
  · rw [hlk] at h
    by_cases hb : b' = b
    · subst hb
      simp at h
      rw [h]
    · simp [hb] at h

theorem lineKeyFor_of_lineKey {b : Bool} {l : List Char} {k : Int}
    (h : lineKey l = some (b, k)) : lineKeyFor b l = some k := by
  unfold lineKeyFor
  rw [h]
  simp

theorem lineRecord_of_lineKey {l : List Char} {p : Bool × Int}
    (h : lineKey l = some p) : ∃ info, lineRecord l = some info := by
  unfold lineKey at h
  unfold lineRecord
  generalize hs : pyStrip l = s at h ⊢
  rcases s with _ | ⟨c, rest⟩
  · simp at h
  · by_cases hc : c = '#'
    · simp [hc] at h
    · simp only [hc] at h
      simp at h
      generalize pySplit (c :: rest) = ps at h ⊢
      rcases ps with _ | ⟨t0, _ | ⟨t1, _ | ⟨t2, _ | ⟨t3, _ | ⟨t4, _ | ⟨t5, _ | ⟨t6, ts⟩⟩⟩⟩⟩⟩⟩ <;>
        first
          | exact ⟨_, rfl⟩
          | simp at h

/-! ## How one processed line affects a table entry -/

theorem processLine_get_of_ne {b : Bool} {l : List Char} {k : Int}
    (h : lineKeyFor b l ≠ some k) {st st' : Tables}
    (hok : processLine st l = .ok st') :
    dictGet (tableOf b st') k = dictGet (tableOf b st) k := by
  rw [processLine_eq] at hok
  split at hok
  · cases hok
  · split at hok
    · rename_i k0 info heq1 heq2
      cases hok
      cases b with
      | true => rfl
      | false =>
        have hne : k0 ≠ k := by
          intro hkk
          exact h (by rw [← hkk]; exact lineKeyFor_of_lineKey heq1)
        simp only [tableOf, if_neg]
        exact dictGet_insert_ne _ _ hne
    · rename_i k0 info heq1 heq2
      cases hok
      cases b with
      | false => rfl
      | true =>
        have hne : k0 ≠ k := by
          intro hkk
          exact h (by rw [← hkk]; exact lineKeyFor_of_lineKey heq1)
        simp only [tableOf, if_pos]
        exact dictGet_insert_ne _ _ hne
    · cases hok; rfl

theorem processLine_get_self {b : Bool} {l : List Char} {k : Int}
    (hk : lineKeyFor b l = some k) {st st' : Tables}
    (hok : processLine st l = .ok st') :
    dictGet (tableOf b st') k = lineRecord l := by
  have hlk := lineKey_of_lineKeyFor hk
  rw [processLine_eq] at hok
  split at hok
  · cases hok
  · split at hok
    · rename_i k0 info heq1 heq2
      cases hok
      rw [hlk] at heq1
      injection heq1 with heq1
      have hb : b = false := congrArg Prod.fst heq1
      have hkk : k = k0 := congrArg Prod.snd heq1
      subst hb
      subst hkk
      rw [heq2]
      simp only [tableOf, if_neg]
      exact dictGet_insert_self _ _ _
    · rename_i k0 info heq1 heq2
      cases hok
      rw [hlk] at heq1
      injection heq1 with heq1
      have hb : b = true := congrArg Prod.fst heq1
      have hkk : k = k0 := congrArg Prod.snd heq1
      subst hb
      subst hkk
      rw [heq2]
      simp only [tableOf, if_pos]
      exact dictGet_insert_self _ _ _
    · rename_i hno1 hno2
      obtain ⟨info, hinfo⟩ := lineRecord_of_lineKey hlk
      cases b with
      | false => exact (hno1 k info hlk hinfo).elim
      | true => exact (hno2 k info hlk hinfo).elim

theorem foldlM_get_of_forall_ne (b : Bool) (k : Int) :
    ∀ (lines : List (List Char)) (st st' : Tables),
      (∀ l' ∈ lines, lineKeyFor b l' ≠ some k) →
      List.foldlM processLine st lines = .ok st' →
      dictGet (tableOf b st') k = dictGet (tableOf b st) k := by
  intro lines
  induction lines with
  | nil =>
    intro st st' _ h
    rw [List.foldlM_nil] at h
    have h' : Except.ok (ε := Unit) st = Except.ok st' := h
    cases h'
    rfl
  | cons a as ih =>
    intro st st' hall h
    rw [List.foldlM_cons] at h
    cases ha : processLine st a with
    | error e =>
      rw [ha] at h
      have h' : Except.error (α := Tables) e = Except.ok st' := h
      cases h'
    | ok st1 =>
      rw [ha] at h
      have h' : List.foldlM processLine st1 as = .ok st' := h
      rw [ih st1 st' (fun l' hm => hall l' (List.mem_cons_of_mem _ hm)) h']
      exact processLine_get_of_ne (hall a (List.mem_cons_self a as)) ha

theorem parse_eq_some {lines : List (List Char)}
    {dfin cfin : Dict Int CodeInfo}
    (h : parse_code_groups_file lines = some (dfin, cfin)) :
    ∃ stfin : Tables,
      List.foldlM processLine
          ({ data_codes := [], ctrl_codes := [] } : Tables) lines = .ok stfin ∧
      stfin.data_codes = dfin ∧ stfin.ctrl_codes = cfin := by
  unfold parse_code_groups_file at h
  cases hf : List.foldlM processLine
      ({ data_codes := [], ctrl_codes := [] } : Tables) lines with
  | error e => rw [hf] at h; cases h
  | ok stfin =>
    rw [hf] at h
    refine ⟨stfin, rfl, ?_, ?_⟩
    · injection h with h'
      exact congrArg Prod.fst h'
    · injection h with h'
      exact congrArg Prod.snd h'

/-! ## Claim C9 -/

/-- Counterexample to C9 as stated: the input line
`D00.0 100 110010 0101 001101 0101` parses successfully and stores its
record under key 256, outside [0,255]. -/
theorem c9_counterexample :
    parse_code_groups_file bigOctetInput =
      some ([((256 : Int),
        { rd_neg := "1100100101".toList, rd_pos := "0011010101".toList,
          name := "D00.0".toList })], []) ∧
    ¬ keysInRange [((256 : Int),
        { rd_neg := "1100100101".toList, rd_pos := "0011010101".toList,
          name := "D00.0".toList })] := by
  constructor
  · decide
  · intro h
    have := h (((256 : Int),
      { rd_neg := "1100100101".toList, rd_pos := "0011010101".toList,
        name := "D00.0".toList })) (by decide)
    omega

/-- C9, amended: a table key is exactly the parsed base-16 octet value of
the last record line for that key and table (last-parsed wins); the value
is not range-checked and may lie outside [0,255]. -/
theorem c9_last_parsed_wins (pre post : List (List Char)) (l : List Char)
    (b : Bool) (k : Int) (dfin cfin : Dict Int CodeInfo)
    (hparse : parse_code_groups_file (pre ++ l :: post) = some (dfin, cfin))
    (hl : lineKeyFor b l = some k)
    (hpost : ∀ l' ∈ post, lineKeyFor b l' ≠ some k) :
    dictGet (if b then cfin else dfin) k = lineRecord l := by
  obtain ⟨stfin, hfold, hd, hc⟩ := parse_eq_some hparse
  rw [foldlM_processLine_append] at hfold
  cases hpre : List.foldlM processLine
      ({ data_codes := [], ctrl_codes := [] } : Tables) pre with
  | error e =>
    rw [hpre] at hfold
    have h' : Except.error (α := Tables) e = Except.ok stfin := hfold
    cases h'
  | ok st0 =>
    rw [hpre] at hfold
    have hfold1 : List.foldlM processLine st0 (l :: post) = .ok stfin := hfold
    rw [List.foldlM_cons] at hfold1
    cases hl1 : processLine st0 l with
    | error e =>
      rw [hl1] at hfold1
      have h' : Except.error (α := Tables) e = Except.ok stfin := hfold1
      cases h'
    | ok st1 =>
      rw [hl1] at hfold1
      have hfold2 : List.foldlM processLine st1 post = .ok stfin := hfold1
      have hpres := foldlM_get_of_forall_ne b k post st1 stfin hpost hfold2
      have hself := processLine_get_self hl hl1
      have htab : (if b then cfin else dfin) = tableOf b stfin := by
        cases b <;> simp [tableOf, hd, hc]
      rw [htab, hpres, hself]

/-- Witness for C9's amended theorem: two data lines with duplicate key
0x0A; the second line's record is the one stored. -/
theorem c9_last_parsed_wins_witness :
    parse_code_groups_file
        (["D10.0 0A 110010 0101 001101 0101".toList] ++
          ("D10.1 0A 111000 1011 000111 0100".toList) :: []) =
      some ([((10 : Int),
        { rd_neg := "1110001011".toList, rd_pos := "0001110100".toList,
          name := "D10.1".toList })], []) ∧
    lineKeyFor false ("D10.1 0A 111000 1011 000111 0100".toList) = some 10 ∧
    dictGet (if false then ([] : Dict Int CodeInfo)
        else [((10 : Int),
          { rd_neg := "1110001011".toList, rd_pos := "0001110100".toList,
            name := "D10.1".toList })]) 10 =
      lineRecord ("D10.1 0A 111000 1011 000111 0100".toList) :=
  ⟨by decide, by decide,
    c9_last_parsed_wins ["D10.0 0A 110010 0101 001101 0101".toList] []
      ("D10.1 0A 111000 1011 000111 0100".toList) false 10
      [((10 : Int),
        { rd_neg := "1110001011".toList, rd_pos := "0001110100".toList,
          name := "D10.1".toList })] []
      (by decide) (by decide) (by intro l' hm; cases hm)⟩

theorem mem_dictInsert {κ α : Type} [DecidableEq κ] {d : Dict κ α}
    {k : κ} {v : α} {kv : κ × α} :
    kv ∈ dictInsert d k v → kv = (k, v) ∨ kv ∈ d := by
  induction d with
  | nil =>
    intro h
    simp [dictInsert] at h
    left; exact h
  | cons kv0 rest ih =>
    obtain ⟨k0, v0⟩ := kv0
    intro h
    by_cases h0 : k0 = k
    · rw [dictInsert, if_pos h0] at h
      rcases List.mem_cons.mp h with h | h
      · left; exact h
      · right; exact List.mem_cons_of_mem _ h
    · rw [dictInsert, if_neg h0] at h
      rcases List.mem_cons.mp h with h | h
      · right; exact h ▸ List.mem_cons_self _ _
      · rcases ih h with h | h
        · left; exact h
        · right; exact List.mem_cons_of_mem _ h

theorem lineRecord_bitstrings {l : List Char} {info : CodeInfo}
    (hrec : lineRecord l = some info) (hok : lineTokensOk l = true) :
    isBitStr10 info.rd_neg = true ∧ isBitStr10 info.rd_pos = true := by
  unfold lineRecord at hrec
  unfold lineTokensOk at hok
  generalize hq : pySplit (pyStrip l) = ps at hrec hok
  rcases ps with _ | ⟨t0, _ | ⟨t1, _ | ⟨t2, _ | ⟨t3, _ | ⟨t4, _ | ⟨t5, _ | ⟨t6, ts⟩⟩⟩⟩⟩⟩⟩ <;>
    first
      | (injection hrec with hrec
         have hneg : info.rd_neg = t2 ++ t3 := by rw [← hrec]
         have hpos : info.rd_pos = t4 ++ t5 := by rw [← hrec]
         rw [hneg, hpos]
         have hok' : (t2.length == 6 && t3.length == 4 && t4.length == 6 &&
             t5.length == 4 && t2.all isBit && t3.all isBit && t4.all isBit &&
             t5.all isBit) = true := hok
         simp [List.all_eq_true] at hok'
         obtain ⟨⟨⟨⟨⟨⟨⟨h2, h3⟩, h4⟩, h5⟩, hb2⟩, hb3⟩, hb4⟩, hb5⟩ := hok'
         constructor <;>
           · simp only [isBitStr10, Bool.and_eq_true, beq_iff_eq,
               decide_eq_true_eq, List.all_eq_true, List.length_append,
               List.mem_append]
             refine ⟨by omega, ?_⟩
             intro x hx
             first
               | exact hx.elim (fun hh => hb2 x hh) (fun hh => hb3 x hh)
               | exact hx.elim (fun hh => hb4 x hh) (fun hh => hb5 x hh))
      | cases hrec

theorem foldlM_codesOk :
    ∀ (lines : List (List Char)) (st st' : Tables),
      (∀ l ∈ lines, lineTokensOk l = true) →
      List.foldlM processLine st lines = .ok st' →
      codesOk st.data_codes → codesOk st.ctrl_codes →
      codesOk st'.data_codes ∧ codesOk st'.ctrl_codes := by
  intro lines
  induction lines with
  | nil =>
    intro st st' _ h hd hc
    have h' : Except.ok (ε := Unit) st = Except.ok st' := h
    cases h'
    exact ⟨hd, hc⟩
  | cons a as ih =>
    intro st st' hall h hd hc
    rw [List.foldlM_cons] at h
    cases ha : processLine st a with
    | error e =>
      rw [ha] at h
      have h' : Except.error (α := Tables) e = Except.ok st' := h
      cases h'
    | ok st1 =>
      rw [ha] at h
      have h' : List.foldlM processLine st1 as = .ok st' := h
      have hwa : lineTokensOk a = true := hall a (List.mem_cons_self a as)
      have hinv : codesOk st1.data_codes ∧ codesOk st1.ctrl_codes := by
        rw [processLine_eq] at ha
        split at ha
        · cases ha
        · split at ha
          · rename_i k0 info heq1 heq2
            cases ha
            refine ⟨?_, hc⟩
            intro kv hm
            rcases mem_dictInsert hm with hkv | hkv
            · rw [hkv]
              exact lineRecord_bitstrings heq2 hwa
            · exact hd kv hkv
          · rename_i k0 info heq1 heq2
            cases ha
            refine ⟨hd, ?_⟩
            intro kv hm
            rcases mem_dictInsert hm with hkv | hkv
            · rw [hkv]
              exact lineRecord_bitstrings heq2 hwa
            · exact hc kv hkv
          · cases ha; exact ⟨hd, hc⟩
      exact ih st1 st' (fun l' hm => hall l' (List.mem_cons_of_mem _ hm)) h'
        hinv.1 hinv.2

/-! ## Claim C7 -/

/-- Counterexample to C7 as stated: the input line
`D05.0 05 11001 0101 001101 0101` (5-character abcdei token) parses
successfully and stores a 9-character negative-disparity code. -/
theorem c7_counterexample :
    parse_code_groups_file shortCodeInput =
      some ([((5 : Int),
        { rd_neg := "110010101".toList, rd_pos := "0011010101".toList,
          name := "D05.0".toList })], []) ∧
    isBitStr10 ("110010101".toList) = false := by
  constructor
  · decide
  · decide

/-- C7, amended: the parser stores the concatenated disparity tokens
unchecked; whenever every input line's disparity tokens are bit-strings
of lengths 6 and 4, every stored record's two code strings are exactly
10 characters of '0'/'1'. -/
theorem c7_codes_bitstrings (lines : List (List Char))
    (dfin cfin : Dict Int CodeInfo)
    (hwf : ∀ l ∈ lines, lineTokensOk l = true)
    (hparse : parse_code_groups_file lines = some (dfin, cfin)) :
    codesOk dfin ∧ codesOk cfin := by
  obtain ⟨stfin, hfold, hd, hc⟩ := parse_eq_some hparse
  have := foldlM_codesOk lines _ _ hwf hfold
    (by intro kv h; cases h) (by intro kv h; cases h)
  rw [hd, hc] at this
  exact this

/-- Witness for C7's amended theorem on a two-line well-formed input. -/
theorem c7_codes_bitstrings_witness :
    (∀ l ∈ (["D12.3 0C 110010 0101 001101 0101".toList,
             "K28.5 BC 001111 1010 110000 0101".toList] : List (List Char)),
       lineTokensOk l = true) ∧
    parse_code_groups_file
        ["D12.3 0C 110010 0101 001101 0101".toList,
         "K28.5 BC 001111 1010 110000 0101".toList] =
      some ([((12 : Int),
        { rd_neg := "1100100101".toList, rd_pos := "0011010101".toList,
          name := "D12.3".toList })],
        [((188 : Int),
          { rd_neg := "0011111010".toList, rd_pos := "1100000101".toList,
            name := "K28.5".toList })]) ∧
    (codesOk [((12 : Int),
        { rd_neg := "1100100101".toList, rd_pos := "0011010101".toList,
          name := "D12.3".toList })] ∧
     codesOk [((188 : Int),
        { rd_neg := "0011111010".toList, rd_pos := "1100000101".toList,
          name := "K28.5".toList })]) :=
  ⟨by decide, by decide,
    c7_codes_bitstrings
      ["D12.3 0C 110010 0101 001101 0101".toList,
       "K28.5 BC 001111 1010 110000 0101".toList]
      [((12 : Int),
        { rd_neg := "1100100101".toList, rd_pos := "0011010101".toList,
          name := "D12.3".toList })]
      [((188 : Int),
        { rd_neg := "0011111010".toList, rd_pos := "1100000101".toList,
          name := "K28.5".toList })]
      (by decide) (by decide)⟩

/-! ## List update/lookup helpers -/

theorem getD_set_self {α : Type} {l : List α} {i : Nat} (v d : α)
    (h : i < l.length) : (l.set i v).getD i d = v := by
  induction l generalizing i with
  | nil => simp at h
  | cons a t ih =>
    cases i with
    | zero => rfl
    | succ n => exact ih (by simpa using h)

theorem getD_set_ne {α : Type} {l : List α} {i j : Nat} (v d : α)
    (h : i ≠ j) : (l.set i v).getD j d = l.getD j d := by
  induction l generalizing i j with
  | nil => rfl
  | cons a t ih =>
    cases i with
    | zero =>
      cases j with
      | zero => exact absurd rfl h
      | succ m => rfl
    | succ n =>
      cases j with
      | zero => rfl
      | succ m => exact ih (by omega)

theorem getD_replicate {α : Type} {n i : Nat} (d v : α) (h : i < n) :
    (List.replicate n v).getD i d = v := by
  induction n generalizing i with
  | zero => simp at h
  | succ m ih =>
    cases i with
    | zero => rfl
    | succ j => exact ih (by omega)

theorem dictGet_eq_none_of_not_mem {κ α : Type} [DecidableEq κ]
    {d : Dict κ α} {k : κ} (h : k ∉ d.map Prod.fst) : dictGet d k = none := by
  induction d with
  | nil => rfl
  | cons kv rest ih =>
    obtain ⟨k0, v0⟩ := kv
    have hk0 : ¬ k0 = k := by
      intro hh
      exact h (by rw [← hh]; exact List.mem_cons_self _ _)
    rw [dictGet, if_neg hk0]
    exact ih (fun hh => h (List.mem_cons_of_mem _ hh))

theorem pySet_eq_some {α : Type} {l : List α} {i : Int} (v : α)
    (h0 : 0 ≤ i) (hlt : i < (l.length : Int)) :
    pySet l i v = some (l.set i.toNat v) := by
  unfold pySet
  rw [if_neg (show ¬ i < 0 by omega)]
  rw [if_pos (show 0 ≤ i ∧ i < (l.length : Int) from ⟨h0, hlt⟩)]

/-! ## The encoder fill loop -/

theorem encFillLoop_eq :
    ∀ (entries : List (Int × CodeInfo)) (an ap : List (List Char)),
      an.length = 256 → ap.length = 256 →
      (∀ kv ∈ entries, 0 ≤ kv.1 ∧ kv.1 < 256) →
      NodupKeys entries →
      ∃ an' ap', encFillLoop entries (an, ap) = some (an', ap') ∧
        an'.length = 256 ∧ ap'.length = 256 ∧
        ∀ a : Nat, a < 256 →
          an'.getD a [] = (match dictGet entries (a : Int) with
                           | some info => info.rd_neg
                           | none => an.getD a []) ∧
          ap'.getD a [] = (match dictGet entries (a : Int) with
                           | some info => info.rd_pos
                           | none => ap.getD a []) := by
  intro entries
  induction entries with
  | nil =>
    intro an ap hlan hlap _ _
    exact ⟨an, ap, rfl, hlan, hlap, fun a _ => ⟨rfl, rfl⟩⟩
  | cons kv rest ih =>
    obtain ⟨k, info⟩ := kv
    intro an ap hlan hlap hrange hnodup
    have hk : 0 ≤ k ∧ k < 256 := hrange (k, info) (List.mem_cons_self _ _)
    have hkn : k ∉ rest.map Prod.fst := by
      have := hnodup
      rw [NodupKeys, List.map_cons, List.nodup_cons] at this
      exact this.1
    have hnodup' : NodupKeys rest := by
      have := hnodup
      rw [NodupKeys, List.map_cons, List.nodup_cons] at this
      exact this.2
    have hrange' : ∀ kv ∈ rest, 0 ≤ kv.1 ∧ kv.1 < 256 :=
      fun kv h => hrange kv (List.mem_cons_of_mem _ h)
    obtain ⟨an', ap', heq, hl1, hl2, hget⟩ :=
      ih (an.set k.toNat info.rd_neg) (ap.set k.toNat info.rd_pos)
        (by rw [List.length_set]; exact hlan)
        (by rw [List.length_set]; exact hlap)
        hrange' hnodup'
    refine ⟨an', ap', ?_, hl1, hl2, ?_⟩
    · rw [encFillLoop,
        pySet_eq_some info.rd_neg hk.1 (by rw [hlan]; exact_mod_cast hk.2),
        pySet_eq_some info.rd_pos hk.1 (by rw [hlap]; exact_mod_cast hk.2)]
      exact heq
    · intro a ha
      obtain ⟨hg1, hg2⟩ := hget a ha
      by_cases hka : k = (a : Int)
      · have hrest : dictGet rest (a : Int) = none := by
          apply dictGet_eq_none_of_not_mem
          rw [← hka]
          exact hkn
        have hkt : k.toNat = a := by omega
        rw [hg1, hg2, hrest, dictGet, if_pos hka, hkt]
        constructor
        · rw [getD_set_self _ _ (by rw [hlan]; exact ha)]
        · rw [getD_set_self _ _ (by rw [hlap]; exact ha)]
      · rw [hg1, hg2, dictGet, if_neg hka]
        cases hr : dictGet rest (a : Int) with
        | some i => exact ⟨rfl, rfl⟩
        | none =>
          have hkt : k.toNat ≠ a := by omega
          rw [getD_set_ne _ _ hkt, getD_set_ne _ _ hkt]
          exact ⟨rfl, rfl⟩

/-- The four encoder arrays as functions of the two tables. -/
theorem write_encoder_eq (d c : Dict Int CodeInfo)
    (hd : NodupKeys d) (hc : NodupKeys c)
    (hdr : keysInRange d) (hcr : keysInRange c) :
    ∃ arrs : EncArrays, write_encoder_mem_files d c = some arrs ∧
      ∀ a : Nat, a < 256 →
        arrs.data_rd_neg.getD a [] = (match dictGet d (a : Int) with
          | some info => info.rd_neg
          | none => zeros10) ∧
        arrs.data_rd_pos.getD a [] = (match dictGet d (a : Int) with
          | some info => info.rd_pos
          | none => zeros10) ∧
        arrs.ctrl_rd_neg.getD a [] = (match dictGet c (a : Int) with
          | some info => info.rd_neg
          | none => zeros10) ∧
        arrs.ctrl_rd_pos.getD a [] = (match dictGet c (a : Int) with
          | some info => info.rd_pos
          | none => zeros10) := by
  obtain ⟨dn, dp, hdeq, _, _, hdget⟩ :=
    encFillLoop_eq d (List.replicate 256 zeros10) (List.replicate 256 zeros10)
      (by simp) (by simp) hdr hd
  obtain ⟨cn, cp, hceq, _, _, hcget⟩ :=
    encFillLoop_eq c (List.replicate 256 zeros10) (List.replicate 256 zeros10)
      (by simp) (by simp) hcr hc
  refine ⟨⟨dn, dp, cn, cp⟩, ?_, ?_⟩
  · rw [write_encoder_mem_files, hdeq, hceq]
  · intro a ha
    obtain ⟨h1, h2⟩ := hdget a ha
    obtain ⟨h3, h4⟩ := hcget a ha
    rw [getD_replicate _ _ ha] at h1 h2 h3 h4
    exact ⟨h1, h2, h3, h4⟩

/-! ## Claim C5 -/

/-- C5: the encoder materializer is a deterministic total function of the
two tables: it never fails, and for every address in [0,255] the slot
holds the table record's code when the address is a key of the source
table, and the all-zero 10-bit string otherwise. -/
theorem c5_encoder_total (d c : Dict Int CodeInfo)
    (hd : NodupKeys d) (hc : NodupKeys c)
    (hdr : keysInRange d) (hcr : keysInRange c) :
    ∃ arrs : EncArrays, write_encoder_mem_files d c = some arrs ∧
      ∀ a : Nat, a < 256 →
        arrs.data_rd_neg.getD a [] = (match dictGet d (a : Int) with
          | some info => info.rd_neg
          | none => zeros10) ∧
        arrs.data_rd_pos.getD a [] = (match dictGet d (a : Int) with
          | some info => info.rd_pos
          | none => zeros10) ∧
        arrs.ctrl_rd_neg.getD a [] = (match dictGet c (a : Int) with
          | some info => info.rd_neg
          | none => zeros10) ∧
        arrs.ctrl_rd_pos.getD a [] = (match dictGet c (a : Int) with
          | some info => info.rd_pos
          | none => zeros10) :=
  write_encoder_eq d c hd hc hdr hcr

/-- Witness for C5 on a one-entry data table and empty control table. -/
theorem c5_encoder_total_witness :
    (NodupKeys [((12 : Int),
        ({ rd_neg := "1100100101".toList, rd_pos := "0011010101".toList,
           name := "D12.3".toList } : CodeInfo))] ∧
     NodupKeys ([] : Dict Int CodeInfo) ∧
     keysInRange [((12 : Int),
        ({ rd_neg := "1100100101".toList, rd_pos := "0011010101".toList,
           name := "D12.3".toList } : CodeInfo))] ∧
     keysInRange ([] : Dict Int CodeInfo)) ∧
    (∃ arrs : EncArrays,
      write_encoder_mem_files
          [((12 : Int),
            ({ rd_neg := "1100100101".toList, rd_pos := "0011010101".toList,
               name := "D12.3".toList } : CodeInfo))] [] = some arrs ∧
      ∀ a : Nat, a < 256 →
        arrs.data_rd_neg.getD a [] =
          (match dictGet [((12 : Int),
              ({ rd_neg := "1100100101".toList, rd_pos := "0011010101".toList,
                 name := "D12.3".toList } : CodeInfo))] (a : Int) with
            | some info => info.rd_neg
            | none => zeros10) ∧
        arrs.data_rd_pos.getD a [] =
          (match dictGet [((12 : Int),
              ({ rd_neg := "1100100101".toList, rd_pos := "0011010101".toList,
                 name := "D12.3".toList } : CodeInfo))] (a : Int) with
            | some info => info.rd_pos
            | none => zeros10) ∧
        arrs.ctrl_rd_neg.getD a [] =
          (match dictGet ([] : Dict Int CodeInfo) (a : Int) with
            | some info => info.rd_neg
            | none => zeros10) ∧
        arrs.ctrl_rd_pos.getD a [] =
          (match dictGet ([] : Dict Int CodeInfo) (a : Int) with
            | some info => info.rd_pos
            | none => zeros10)) :=
  ⟨⟨by decide, by decide, by decide, by decide⟩,
    c5_encoder_total _ _ (by decide) (by decide) (by decide) (by decide)⟩

/-! ## Bit-strings and `pyInt2` -/

theorem isBit_cases {c : Char} (h : isBit c = true) : c = '0' ∨ c = '1' := by
  simpa [isBit, decide_eq_true_eq] using h

theorem not_space_of_isBit {c : Char} (h : isBit c = true) :
    isPySpace c = false := by
  rcases isBit_cases h with h | h <;> subst h <;> decide

theorem dropWhile_space_of_bits {s : List Char}
    (h : ∀ c ∈ s, isBit c = true) : s.dropWhile isPySpace = s := by
  cases s with
  | nil => rfl
  | cons c t =>
    rw [List.dropWhile_cons,
      if_neg (by simp [not_space_of_isBit (h c (List.mem_cons_self c t))])]

theorem pyStrip_of_bits {s : List Char}
    (h : ∀ c ∈ s, isBit c = true) : pyStrip s = s := by
  unfold pyStrip
  rw [dropWhile_space_of_bits h,
    dropWhile_space_of_bits (fun c hc => h c (List.mem_reverse.mp hc)),
    List.reverse_reverse]

/-- Unfolding `pyDigitsAux` over one non-underscore digit. -/
theorem pyDigitsAux_cons (dv : Char → Option Nat) (b acc : Nat) {c : Char}
    (t : List Char) (hc : ¬ c = '_') {d : Nat} (hd : dv c = some d) :
    pyDigitsAux dv b acc (c :: t) = pyDigitsAux dv b (acc * b + d) t := by
  rw [pyDigitsAux.eq_def]
  dsimp only
  rw [if_neg hc, hd]

theorem pyDigitsAux_bits (s : List Char) :
    ∀ acc : Nat, (∀ c ∈ s, isBit c = true) →
      pyDigitsAux digitVal2 2 acc s =
        some (s.foldl (fun a c => 2 * a + (if c = '1' then 1 else 0)) acc) := by
  induction s with
  | nil => intro acc _; rfl
  | cons c t ih =>
    intro acc h
    have hc := h c (List.mem_cons_self c t)
    have ht : ∀ x ∈ t, isBit x = true := fun x hx => h x (List.mem_cons_of_mem _ hx)
    rcases isBit_cases hc with h0 | h0 <;> subst h0
    · rw [pyDigitsAux_cons digitVal2 2 acc t (by decide)
          (show digitVal2 '0' = some 0 from rfl), ih _ ht,
        show List.foldl (fun a c => 2 * a + (if c = '1' then 1 else 0)) acc ('0' :: t) =
          List.foldl (fun a c => 2 * a + (if c = '1' then 1 else 0)) (2 * acc + 0) t from rfl,
        show acc * 2 + 0 = 2 * acc + 0 by omega]
    · rw [pyDigitsAux_cons digitVal2 2 acc t (by decide)
          (show digitVal2 '1' = some 1 from rfl), ih _ ht,
        show List.foldl (fun a c => 2 * a + (if c = '1' then 1 else 0)) acc ('1' :: t) =
          List.foldl (fun a c => 2 * a + (if c = '1' then 1 else 0)) (2 * acc + 1) t from rfl,
        show acc * 2 + 1 = 2 * acc + 1 by omega]

theorem pyDigits_bits {s : List Char} (hne : s ≠ [])
    (h : ∀ c ∈ s, isBit c = true) :
    pyDigits digitVal2 2 s = some (bitsVal s) := by
  cases s with
  | nil => exact absurd rfl hne
  | cons c t =>
    have hc := h c (List.mem_cons_self c t)
    have ht : ∀ x ∈ t, isBit x = true := fun x hx => h x (List.mem_cons_of_mem _ hx)
    rcases isBit_cases hc with h0 | h0 <;> subst h0
    · rw [show pyDigits digitVal2 2 ('0' :: t) = pyDigitsAux digitVal2 2 0 t from rfl,
        pyDigitsAux_bits t 0 ht]
      rfl
    · rw [show pyDigits digitVal2 2 ('1' :: t) = pyDigitsAux digitVal2 2 1 t from rfl,
        pyDigitsAux_bits t 1 ht]
      rfl

theorem pyIntFrom_bits {s : List Char} (hne : s ≠ [])
    (h : ∀ c ∈ s, isBit c = true) :
    pyIntFrom digitVal2 2 ['b', 'B'] s = some (bitsVal s) := by
  rcases s with _ | ⟨c0, _ | ⟨c1, rest⟩⟩
  · exact absurd rfl hne
  · have hc0 := h c0 (List.mem_cons_self _ _)
    rcases isBit_cases hc0 with h0 | h0 <;> subst h0 <;>
      exact pyDigits_bits hne h
  · have hc0 := h c0 (List.mem_cons_self _ _)
    have hc1 := h c1 (List.mem_cons_of_mem _ (List.mem_cons_self _ _))
    rcases isBit_cases hc0 with h0 | h0 <;> rcases isBit_cases hc1 with h1 | h1 <;>
      subst h0 <;> subst h1 <;> exact pyDigits_bits hne h

theorem pyInt2_bits {s : List Char} (hne : s ≠ [])
    (h : ∀ c ∈ s, isBit c = true) :
    pyInt2 s = some ((bitsVal s : Int)) := by
  unfold pyInt2 pyIntStr
  rw [pyStrip_of_bits h]
  rcases s with _ | ⟨c, t⟩
  · exact absurd rfl hne
  · have hc := h c (List.mem_cons_self c t)
    have hplus : c ≠ '+' := by
      rcases isBit_cases hc with h0 | h0 <;> subst h0 <;> decide
    have hminus : c ≠ '-' := by
      rcases isBit_cases hc with h0 | h0 <;> subst h0 <;> decide
    rcases isBit_cases hc with h0 | h0 <;> subst h0 <;>
      simp [pyIntFrom_bits hne h]

theorem bitsValFrom_eq (s : List Char) : ∀ acc : Nat,
    s.foldl (fun a c => 2 * a + (if c = '1' then 1 else 0)) acc =
      acc * 2 ^ s.length + bitsVal s := by
  induction s with
  | nil => intro acc; simp [bitsVal]
  | cons c t ih =>
    intro acc
    simp only [List.foldl_cons]
    rw [ih (2 * acc + (if c = '1' then 1 else 0)),
      show bitsVal (c :: t) =
        List.foldl (fun a c => 2 * a + (if c = '1' then 1 else 0))
          (2 * 0 + (if c = '1' then 1 else 0)) t from rfl,
      ih (2 * 0 + (if c = '1' then 1 else 0))]
    simp only [List.length_cons, pow_succ]
    ring

theorem bitsVal_lt (s : List Char) : bitsVal s < 2 ^ s.length := by
  induction s with
  | nil => simp [bitsVal]
  | cons c t ih =>
    rw [show bitsVal (c :: t) =
        List.foldl (fun a c => 2 * a + (if c = '1' then 1 else 0))
          (2 * 0 + (if c = '1' then 1 else 0)) t from rfl,
      bitsValFrom_eq]
    simp only [List.length_cons, pow_succ]
    by_cases hc : c = '1'
    · rw [if_pos hc]; omega
    · rw [if_neg hc]; omega

theorem bitsVal_inj (s : List Char) : ∀ (t : List Char),
    (∀ c ∈ s, isBit c = true) → (∀ c ∈ t, isBit c = true) →
    s.length = t.length → bitsVal s = bitsVal t → s = t := by
  induction s with
  | nil =>
    intro t _ _ hlen _
    cases t with
    | nil => rfl
    | cons d t' => simp at hlen
  | cons c s' ih =>
    intro t hs ht hlen hval
    cases t with
    | nil => simp at hlen
    | cons d t' =>
      have hlen' : s'.length = t'.length := by simpa using hlen
      have hc := hs c (List.mem_cons_self _ _)
      have hd := ht d (List.mem_cons_self _ _)
      have hs' : ∀ x ∈ s', isBit x = true :=
        fun x hx => hs x (List.mem_cons_of_mem _ hx)
      have ht' : ∀ x ∈ t', isBit x = true :=
        fun x hx => ht x (List.mem_cons_of_mem _ hx)
      have hv1 := bitsVal_lt s'
      have hv2 := bitsVal_lt t'
      rw [← hlen'] at hv2
      rw [show bitsVal (c :: s') =
          List.foldl (fun a c => 2 * a + (if c = '1' then 1 else 0))
            (2 * 0 + (if c = '1' then 1 else 0)) s' from rfl,
        bitsValFrom_eq,
        show bitsVal (d :: t') =
          List.foldl (fun a c => 2 * a + (if c = '1' then 1 else 0))
            (2 * 0 + (if d = '1' then 1 else 0)) t' from rfl,
        bitsValFrom_eq, ← hlen'] at hval
      by_cases h1 : c = '1' <;> by_cases h2 : d = '1'
      · rw [if_pos h1, if_pos h2] at hval
        rw [h1, h2, ih t' hs' ht' hlen' (by omega)]
      · rw [if_pos h1, if_neg h2] at hval
        omega
      · rw [if_neg h1, if_pos h2] at hval
        omega
      · rw [if_neg h1, if_neg h2] at hval
        have hc0 : c = '0' := by
          rcases isBit_cases hc with h | h
          · exact h
          · exact absurd h h1
        have hd0 : d = '0' := by
          rcases isBit_cases hd with h | h
          · exact h
          · exact absurd h h2
        rw [hc0, hd0, ih t' hs' ht' hlen' (by omega)]

/-! ## More dictionary lemmas, for the decoder's reverse lookups -/

theorem keys_dictInsert_subset {κ α : Type} [DecidableEq κ]
    (d : Dict κ α) (k : κ) (v : α) :
    ∀ k', k' ∈ (dictInsert d k v).map Prod.fst →
      k' ∈ d.map Prod.fst ∨ k' = k := by
  induction d with
  | nil =>
    intro k' h
    right
    simpa [dictInsert] using h
  | cons kv rest ih =>
    obtain ⟨k0, v0⟩ := kv
    intro k' h
    by_cases h0 : k0 = k
    · rw [dictInsert, if_pos h0] at h
      rw [List.map_cons, List.mem_cons] at h
      rcases h with h | h
      · right; exact h
      · left; rw [List.map_cons, List.mem_cons]; right; exact h
    · rw [dictInsert, if_neg h0] at h
      rw [List.map_cons, List.mem_cons] at h
      rcases h with h | h
      · left; rw [List.map_cons, List.mem_cons]; left; exact h
      · rcases ih k' h with h | h
        · left; rw [List.map_cons, List.mem_cons]; right; exact h
        · right; exact h

theorem nodupKeys_dictInsert {κ α : Type} [DecidableEq κ]
    {d : Dict κ α} (h : NodupKeys d) (k : κ) (v : α) :
    NodupKeys (dictInsert d k v) := by
  induction d with
  | nil => simp [dictInsert, NodupKeys]
  | cons kv rest ih =>
    obtain ⟨k0, v0⟩ := kv
    rw [NodupKeys, List.map_cons, List.nodup_cons] at h
    by_cases h0 : k0 = k
    · rw [NodupKeys, dictInsert, if_pos h0, List.map_cons, List.nodup_cons]
      exact ⟨h0 ▸ h.1, h.2⟩
    · rw [NodupKeys, dictInsert, if_neg h0, List.map_cons, List.nodup_cons]
      refine ⟨?_, ih h.2⟩
      intro hmem
      rcases keys_dictInsert_subset rest k v k0 hmem with hh | hh
      · exact h.1 hh
      · exact h0 hh

theorem mem_keys_of_dictGet {κ α : Type} [DecidableEq κ]
    {d : Dict κ α} {k : κ} {v : α} (h : dictGet d k = some v) :
    k ∈ d.map Prod.fst := by
  induction d with
  | nil => cases h
  | cons kv rest ih =>
    obtain ⟨k0, v0⟩ := kv
    by_cases h0 : k0 = k
    · simp [h0]
    · rw [dictGet, if_neg h0] at h
      simpa using Or.inr (ih h)

theorem nodupKeys_insFold {κ α : Type} [DecidableEq κ] (l : List (κ × α)) :
    ∀ init : Dict κ α, NodupKeys init → NodupKeys (insFold init l) := by
  induction l with
  | nil => intro init h; exact h
  | cons kv rest ih =>
    intro init h
    exact ih (dictInsert init kv.1 kv.2) (nodupKeys_dictInsert h kv.1 kv.2)

theorem mem_keys_insFold {κ α : Type} [DecidableEq κ] (l : List (κ × α)) :
    ∀ (init : Dict κ α) (k' : κ), k' ∈ (insFold init l).map Prod.fst →
      k' ∈ init.map Prod.fst ∨ k' ∈ l.map Prod.fst := by
  induction l with
  | nil => intro init k' h; left; exact h
  | cons kv rest ih =>
    intro init k' h
    rcases ih (dictInsert init kv.1 kv.2) k' h with h | h
    · rcases keys_dictInsert_subset init kv.1 kv.2 k' h with h | h
      · left; exact h
      · right; simp [h]
    · right; simp [h]

theorem lastVal_cons {κ α : Type} [DecidableEq κ] (k0 : κ) (v0 : α)
    (rest : List (κ × α)) (k : κ) :
    lastVal ((k0, v0) :: rest) k =
      (match lastVal rest k with
       | some v' => some v'
       | none => if k0 = k then some v0 else none) := rfl

theorem dictGet_insFold {κ α : Type} [DecidableEq κ] (l : List (κ × α)) :
    ∀ (init : Dict κ α) (k : κ),
      dictGet (insFold init l) k =
        (match lastVal l k with
         | some v => some v
         | none => dictGet init k) := by
  induction l with
  | nil => intro init k; rfl
  | cons kv rest ih =>
    obtain ⟨k0, v0⟩ := kv
    intro init k
    rw [show insFold init ((k0, v0) :: rest) =
        insFold (dictInsert init k0 v0) rest from rfl, ih]
    rw [show lastVal ((k0, v0) :: rest) k =
        (match lastVal rest k with
         | some v' => some v'
         | none => if k0 = k then some v0 else none) from rfl]
    cases h : lastVal rest k with
    | some v' => rfl
    | none =>
      by_cases hk : k0 = k
      · rw [if_pos hk]
        subst hk
        exact dictGet_insert_self _ _ _
      · rw [if_neg hk]
        exact dictGet_insert_ne _ _ hk

theorem lastVal_eq_dictGet {κ α : Type} [DecidableEq κ] :
    ∀ (d : Dict κ α), NodupKeys d → ∀ k, lastVal d k = dictGet d k := by
  intro d
  induction d with
  | nil => intro _ k; rfl
  | cons kv rest ih =>
    obtain ⟨k0, v0⟩ := kv
    intro h k
    rw [NodupKeys, List.map_cons, List.nodup_cons] at h
    rw [show lastVal ((k0, v0) :: rest) k =
        (match lastVal rest k with
         | some v' => some v'
         | none => if k0 = k then some v0 else none) from rfl,
      ih h.2 k]
    cases hg : dictGet rest k with
    | some v' =>
      have hk : ¬ k0 = k := by
        intro hk
        subst hk
        exact h.1 (mem_keys_of_dictGet hg)
      simp [dictGet, hk, hg]
    | none =>
      by_cases hk : k0 = k
      · simp [dictGet, hk]
      · simp [dictGet, hk, hg]

/-! ## Decoder lookup construction and fill loop -/

theorem isBitStr10_spec {C : List Char} (h : isBitStr10 C = true) :
    C.length = 10 ∧ ∀ c ∈ C, isBit c = true := by
  simpa only [isBitStr10, Bool.and_eq_true, decide_eq_true_eq,
    List.all_eq_true] using h

theorem decLookupLoop_eq (isC : Bool) :
    ∀ (entries : List (Int × CodeInfo)) (ln lp : Dict (List Char) DecInfo),
      decLookupLoop isC entries (ln, lp) =
        (insFold ln (entries.map (fun kv => (kv.2.rd_neg, ⟨kv.1, isC⟩))),
         insFold lp (entries.map (fun kv => (kv.2.rd_pos, ⟨kv.1, isC⟩)))) := by
  intro entries
  induction entries with
  | nil => intro ln lp; rfl
  | cons kv rest ih =>
    obtain ⟨octet, info⟩ := kv
    intro ln lp
    rw [show decLookupLoop isC ((octet, info) :: rest) (ln, lp) =
        decLookupLoop isC rest
          (dictInsert ln info.rd_neg ⟨octet, isC⟩,
           dictInsert lp info.rd_pos ⟨octet, isC⟩) from rfl, ih]
    rfl

theorem decFillLoop_eq :
    ∀ (entries : List (List Char × DecInfo)) (arr : List (List Char)),
      arr.length = 1024 →
      (∀ kv ∈ entries, isBitStr10 kv.1 = true) →
      ∃ arr', decFillLoop entries arr = some arr' ∧ arr'.length = 1024 ∧
        ∀ C : List Char, isBitStr10 C = true →
          arr'.getD (bitsVal C) [] =
            (match lastVal entries C with
             | some info => packEntry info
             | none => arr.getD (bitsVal C) []) := by
  intro entries
  induction entries with
  | nil => intro arr hlen _; exact ⟨arr, rfl, hlen, fun C _ => rfl⟩
  | cons kv rest ih =>
    obtain ⟨C0, info⟩ := kv
    intro arr hlen hall
    have hb0 : isBitStr10 C0 = true := hall (C0, info) (List.mem_cons_self _ _)
    obtain ⟨hlen0, hbits0⟩ := isBitStr10_spec hb0
    have hne0 : C0 ≠ [] := by
      intro hh
      rw [hh] at hlen0
      cases hlen0
    have hval0 : pyInt2 C0 = some ((bitsVal C0 : Int)) := pyInt2_bits hne0 hbits0
    have hlt0 : bitsVal C0 < 1024 := by
      have hb := bitsVal_lt C0
      rw [hlen0, show (2 : Nat) ^ 10 = 1024 by norm_num] at hb
      exact hb
    rw [show decFillLoop ((C0, info) :: rest) arr =
        (match pyInt2 C0 with
         | none => none
         | some code_int =>
           if code_int < 1024 then
             match pySet arr code_int (packEntry info) with
             | none => none
             | some arr2 => decFillLoop rest arr2
           else decFillLoop rest arr) from rfl,
      hval0]
    rw [show ((match some ((bitsVal C0 : Int)) with
         | none => none
         | some code_int =>
           if code_int < 1024 then
             match pySet arr code_int (packEntry info) with
             | none => none
             | some arr2 => decFillLoop rest arr2
           else decFillLoop rest arr) : Option (List (List Char))) =
        (if ((bitsVal C0 : Int)) < 1024 then
           match pySet arr ((bitsVal C0 : Int)) (packEntry info) with
           | none => none
           | some arr2 => decFillLoop rest arr2
         else decFillLoop rest arr) from rfl,
      if_pos (show ((bitsVal C0 : Int)) < 1024 by exact_mod_cast hlt0),
      pySet_eq_some (packEntry info) (Int.natCast_nonneg _)
        (by rw [hlen]; exact_mod_cast hlt0)]
    obtain ⟨arr', heq, hlen', hget⟩ := ih
      (arr.set ((bitsVal C0 : Int)).toNat (packEntry info))
      (by rw [List.length_set]; exact hlen)
      (fun kv h => hall kv (List.mem_cons_of_mem _ h))
    refine ⟨arr', heq, hlen', ?_⟩
    intro C hC
    rw [hget C hC, lastVal_cons]
    cases hl : lastVal rest C with
    | some i => rfl
    | none =>
      rw [Int.toNat_natCast]
      by_cases hC0C : C0 = C
      · rw [if_pos hC0C]
        subst hC0C
        rw [getD_set_self _ _ (by rw [hlen]; exact hlt0)]
      · rw [if_neg hC0C]
        obtain ⟨hlenC, hbitsC⟩ := isBitStr10_spec hC
        have hne : bitsVal C0 ≠ bitsVal C := by
          intro hv
          exact hC0C (bitsVal_inj C0 C hbits0 hbitsC (by rw [hlen0, hlenC]) hv)
        rw [getD_set_ne _ _ hne]

theorem lastVal_mem {κ α : Type} [DecidableEq κ] :
    ∀ {l : List (κ × α)} {k : κ} {v : α},
      lastVal l k = some v → (k, v) ∈ l := by
  intro l
  induction l with
  | nil => intro k v h; cases h
  | cons kv rest ih =>
    obtain ⟨k0, v0⟩ := kv
    intro k v h
    rw [lastVal_cons] at h
    cases hr : lastVal rest k with
    | some v' =>
      rw [hr] at h
      injection h with h
      exact List.mem_cons_of_mem _ (h ▸ ih hr)
    | none =>
      rw [hr] at h
      by_cases hk : k0 = k
      · rw [if_pos hk] at h
        injection h with h
        rw [← hk, ← h]
        exact List.mem_cons_self _ _
      · rw [if_neg hk] at h
        cases h

theorem lastVal_eq_none {κ α : Type} [DecidableEq κ] :
    ∀ {l : List (κ × α)} {k : κ},
      (∀ v : α, (k, v) ∉ l) → lastVal l k = none := by
  intro l
  induction l with
  | nil => intro k _; rfl
  | cons kv rest ih =>
    obtain ⟨k0, v0⟩ := kv
    intro k h
    rw [lastVal_cons,
      ih (fun v hv => h v (List.mem_cons_of_mem _ hv))]
    rw [if_neg]
    intro hk
    exact h v0 (by rw [← hk]; exact List.mem_cons_self _ _)

theorem not_mem_of_lastVal_none {κ α : Type} [DecidableEq κ] :
    ∀ {l : List (κ × α)} {k : κ}, lastVal l k = none →
      ∀ v : α, (k, v) ∉ l := by
  intro l
  induction l with
  | nil => intro k _ v h; cases h
  | cons kv rest ih =>
    obtain ⟨k0, v0⟩ := kv
    intro k h v hv
    rw [lastVal_cons] at h
    cases hr : lastVal rest k with
    | some v' => rw [hr] at h; cases h
    | none =>
      rw [hr] at h
      by_cases hk : k0 = k
      · rw [if_pos hk] at h; cases h
      · rcases List.mem_cons.mp hv with hh | hh
        · injection hh with h1 h2
          exact hk h1.symm
        · exact ih hr v hh

theorem lastVal_eq_some_of_unique {κ α : Type} [DecidableEq κ]
    {l : List (κ × α)} {k : κ} {v : α}
    (hmem : (k, v) ∈ l) (huniq : ∀ kv ∈ l, kv.1 = k → kv = (k, v)) :
    lastVal l k = some v := by
  induction l with
  | nil => cases hmem
  | cons kv rest ih =>
    obtain ⟨k0, v0⟩ := kv
    rw [lastVal_cons]
    cases hr : lastVal rest k with
    | some v' =>
      have hmem' : (k, v') ∈ rest := lastVal_mem hr
      have := huniq (k, v') (List.mem_cons_of_mem _ hmem') rfl
      injection this with h1 h2
      rw [h2]
    | none =>
      show (if k0 = k then some v0 else none) = some v
      rcases List.mem_cons.mp hmem with hh | hh
      · injection hh with h1 h2
        rw [if_pos h1.symm, h2]
      · exact absurd hh (not_mem_of_lastVal_none hr v)

theorem dictGet_eq_some_of_mem_nodup {κ α : Type} [DecidableEq κ]
    {d : Dict κ α} (hnodup : NodupKeys d) {k : κ} {v : α}
    (hmem : (k, v) ∈ d) : dictGet d k = some v := by
  induction d with
  | nil => cases hmem
  | cons kv rest ih =>
    obtain ⟨k0, v0⟩ := kv
    rw [NodupKeys, List.map_cons, List.nodup_cons] at hnodup
    rcases List.mem_cons.mp hmem with hh | hh
    · injection hh with h1 h2
      rw [dictGet, if_pos h1.symm, h2]
    · have hk : ¬ k0 = k := by
        intro hk
        subst hk
        exact hnodup.1 (List.mem_map.mpr ⟨(k0, v), hh, rfl⟩)
      rw [dictGet, if_neg hk]
      exact ih hnodup.2 hh

theorem bitsVal_lt_1024 {C : List Char} (hC : isBitStr10 C = true) :
    bitsVal C < 1024 := by
  obtain ⟨hlen, _⟩ := isBitStr10_spec hC
  have hb := bitsVal_lt C
  rw [hlen, show (2 : Nat) ^ 10 = 1024 by norm_num] at hb
  exact hb

theorem lastVal_insFold_pair {κ α : Type} [DecidableEq κ]
    (l1 l2 : List (κ × α)) (k : κ) :
    lastVal (insFold (insFold [] l1) l2) k =
      (match lastVal l2 k with
       | some v => some v
       | none => lastVal l1 k) := by
  have hnodup : NodupKeys (insFold (insFold ([] : Dict κ α) l1) l2) :=
    nodupKeys_insFold _ _ (nodupKeys_insFold _ _ (by simp [NodupKeys]))
  have hnodup1 : NodupKeys (insFold ([] : Dict κ α) l1) :=
    nodupKeys_insFold _ _ (by simp [NodupKeys])
  rw [lastVal_eq_dictGet _ hnodup k, dictGet_insFold]
  cases lastVal l2 k with
  | some v => rfl
  | none =>
    rw [dictGet_insFold]
    cases h1 : lastVal l1 k with
    | some v => rfl
    | none => rfl

/-- The two decoder arrays produced by `write_decoder_mem_files`, as
functions of the two tables: at the address of a well-formed code `C`,
the entry comes from the last control record with that code, else the
last data record with that code, else the default. -/
theorem write_decoder_eq (d c : Dict Int CodeInfo)
    (hd : codesOk d) (hc : codesOk c) :
    ∃ dn dp, write_decoder_mem_files d c = some (dn, dp) ∧
      dn.length = 1024 ∧ dp.length = 1024 ∧
      (∀ C : List Char, isBitStr10 C = true →
        dn.getD (bitsVal C) [] =
          (match lastVal (lookupList CodeInfo.rd_neg true c) C with
           | some i => packEntry i
           | none =>
             match lastVal (lookupList CodeInfo.rd_neg false d) C with
             | some i => packEntry i
             | none => zeros10)) ∧
      (∀ C : List Char, isBitStr10 C = true →
        dp.getD (bitsVal C) [] =
          (match lastVal (lookupList CodeInfo.rd_pos true c) C with
           | some i => packEntry i
           | none =>
             match lastVal (lookupList CodeInfo.rd_pos false d) C with
             | some i => packEntry i
             | none => zeros10)) := by
  have hkeys : ∀ (sel : CodeInfo → List Char),
      (∀ kv ∈ d, isBitStr10 (sel kv.2) = true) →
      (∀ kv ∈ c, isBitStr10 (sel kv.2) = true) →
      ∀ kv ∈ insFold (insFold [] (lookupList sel false d)) (lookupList sel true c),
        isBitStr10 kv.1 = true := by
    intro sel hds hcs kv hkv
    have hkey : kv.1 ∈ (insFold (insFold [] (lookupList sel false d))
        (lookupList sel true c)).map Prod.fst :=
      List.mem_map.mpr ⟨kv, hkv, rfl⟩
    rcases mem_keys_insFold _ _ _ hkey with h | h
    · rcases mem_keys_insFold _ _ _ h with h' | h'
      · simp at h'
      · rw [List.map_map, List.mem_map] at h'
        obtain ⟨kv', hkv', heq⟩ := h'
        rw [← heq]
        exact hds kv' hkv'
    · rw [List.map_map, List.mem_map] at h
      obtain ⟨kv', hkv', heq⟩ := h
      rw [← heq]
      exact hcs kv' hkv'
  obtain ⟨dn, hdneq, hdnlen, hdnget⟩ := decFillLoop_eq
    (insFold (insFold [] (lookupList CodeInfo.rd_neg false d))
      (lookupList CodeInfo.rd_neg true c))
    (List.replicate 1024 zeros10) (by simp)
    (hkeys CodeInfo.rd_neg (fun kv h => (hd kv h).1) (fun kv h => (hc kv h).1))
  obtain ⟨dp, hdpeq, hdplen, hdpget⟩ := decFillLoop_eq
    (insFold (insFold [] (lookupList CodeInfo.rd_pos false d))
      (lookupList CodeInfo.rd_pos true c))
    (List.replicate 1024 zeros10) (by simp)
    (hkeys CodeInfo.rd_pos (fun kv h => (hd kv h).2) (fun kv h => (hc kv h).2))
  refine ⟨dn, dp, ?_, hdnlen, hdplen, ?_, ?_⟩
  · unfold write_decoder_mem_files
    rw [decLookupLoop_eq false d [] []]
    dsimp only
    rw [decLookupLoop_eq true c (insFold [] (lookupList CodeInfo.rd_neg false d))
      (insFold [] (lookupList CodeInfo.rd_pos false d))]
    dsimp only
    rw [hdneq, hdpeq]
  · intro C hC
    rw [hdnget C hC, getD_replicate _ _ (bitsVal_lt_1024 hC),
      lastVal_insFold_pair]
    cases lastVal (lookupList CodeInfo.rd_neg true c) C with
    | some i => rfl
    | none =>
      cases lastVal (lookupList CodeInfo.rd_neg false d) C with
      | some i => rfl
      | none => rfl
  · intro C hC
    rw [hdpget C hC, getD_replicate _ _ (bitsVal_lt_1024 hC),
      lastVal_insFold_pair]
    cases lastVal (lookupList CodeInfo.rd_pos true c) C with
    | some i => rfl
    | none =>
      cases lastVal (lookupList CodeInfo.rd_pos false d) C with
      | some i => rfl
      | none => rfl

/-! ## Claim C4 -/

/-- C4: data records are processed into the per-disparity reverse index
first and control records after, so when a data record and a control
record share the same 10-bit code under the same disparity (`r = true`
for positive disparity), the control record's entry wins in the
resulting decode array. -/
theorem c4_control_wins (d c : Dict Int CodeInfo) (r : Bool)
    (hd : codesOk d) (hc : codesOk c)
    (a : Int) (di : CodeInfo) (hda : (a, di) ∈ d)
    (b : Int) (ki : CodeInfo) (hkb : (b, ki) ∈ c)
    (C : List Char)
    (hdc : (if r then CodeInfo.rd_pos else CodeInfo.rd_neg) di = C)
    (hkc : (if r then CodeInfo.rd_pos else CodeInfo.rd_neg) ki = C)
    (huniq : ∀ kv ∈ c,
      (if r then CodeInfo.rd_pos else CodeInfo.rd_neg) kv.2 = C → kv = (b, ki)) :
    ∃ dn dp, write_decoder_mem_files d c = some (dn, dp) ∧
      (if r then dp else dn).getD (bitsVal C) [] =
        packEntry { data := b, is_control := true } := by
  obtain ⟨dn, dp, heq, _, _, hgn, hgp⟩ := write_decoder_eq d c hd hc
  have hCbit : isBitStr10 C = true := by
    have hki := hc (b, ki) hkb
    cases r with
    | false => rw [← show ki.rd_neg = C from hkc]; exact hki.1
    | true => rw [← show ki.rd_pos = C from hkc]; exact hki.2
  have hlast : lastVal
      (lookupList (if r then CodeInfo.rd_pos else CodeInfo.rd_neg) true c) C =
      some { data := b, is_control := true } := by
    apply lastVal_eq_some_of_unique
    · exact List.mem_map.mpr ⟨(b, ki), hkb, by rw [hkc]⟩
    · intro kv hkv h1
      obtain ⟨kv', hkv', heq'⟩ := List.mem_map.mp hkv
      rw [← heq'] at h1
      have := huniq kv' hkv' h1
      rw [← heq', this, hkc]
  refine ⟨dn, dp, heq, ?_⟩
  cases r with
  | false =>
    rw [show ((if false then dp else dn) : List (List Char)) = dn from rfl,
      hgn C hCbit,
      show (lookupList (if false then CodeInfo.rd_pos else CodeInfo.rd_neg) true c) =
        lookupList CodeInfo.rd_neg true c from rfl] at *
    rw [hlast]
  | true =>
    rw [show ((if true then dp else dn) : List (List Char)) = dp from rfl,
      hgp C hCbit,
      show (lookupList (if true then CodeInfo.rd_pos else CodeInfo.rd_neg) true c) =
        lookupList CodeInfo.rd_pos true c from rfl] at *
    rw [hlast]

/-- Witness for C4: `D12.3` and `K28.0` share negative-disparity code
`1100100101`; the decode entry at 805 is the control record's. -/
theorem c4_control_wins_witness :
    ((((12 : Int),
        ({ rd_neg := "1100100101".toList, rd_pos := "0011010101".toList,
           name := "D12.3".toList } : CodeInfo)) ∈
      [((12 : Int),
        ({ rd_neg := "1100100101".toList, rd_pos := "0011010101".toList,
           name := "D12.3".toList } : CodeInfo))]) ∧
     (((28 : Int),
        ({ rd_neg := "1100100101".toList, rd_pos := "0010110100".toList,
           name := "K28.0".toList } : CodeInfo)) ∈
      [((28 : Int),
        ({ rd_neg := "1100100101".toList, rd_pos := "0010110100".toList,
           name := "K28.0".toList } : CodeInfo))])) ∧
    (∃ dn dp,
      write_decoder_mem_files
          [((12 : Int),
            ({ rd_neg := "1100100101".toList, rd_pos := "0011010101".toList,
               name := "D12.3".toList } : CodeInfo))]
          [((28 : Int),
            ({ rd_neg := "1100100101".toList, rd_pos := "0010110100".toList,
               name := "K28.0".toList } : CodeInfo))] = some (dn, dp) ∧
      (if false then dp else dn).getD (bitsVal ("1100100101".toList)) [] =
        packEntry { data := 28, is_control := true }) :=
  ⟨⟨by decide, by decide⟩,
    c4_control_wins
      [((12 : Int),
        ({ rd_neg := "1100100101".toList, rd_pos := "0011010101".toList,
           name := "D12.3".toList } : CodeInfo))]
      [((28 : Int),
        ({ rd_neg := "1100100101".toList, rd_pos := "0010110100".toList,
           name := "K28.0".toList } : CodeInfo))]
      false (by decide) (by decide) 12
      ({ rd_neg := "1100100101".toList, rd_pos := "0011010101".toList,
         name := "D12.3".toList } : CodeInfo) (by decide) 28
      ({ rd_neg := "1100100101".toList, rd_pos := "0010110100".toList,
         name := "K28.0".toList } : CodeInfo) (by decide)
      ("1100100101".toList) (by decide) (by decide) (by decide)⟩

/-! ## Claim C1 -/

/-- Counterexample to C1 as stated: in `collisionInput` the data record
`D12.3` (octet 12) and the control record `K28.0` (octet 28) share the
negative-disparity code `1100100101` (= 805).  The encode entry
(dataTable, neg, 12, 1100100101) is populated, but the decode array at
805 is `1100011100`: its control bit is '1', not '0', and its data field
is 28, not 12 — the round trip fails for the data entry. -/
theorem c1_counterexample :
    parse_code_groups_file collisionInput =
      some ([((12 : Int),
        { rd_neg := "1100100101".toList, rd_pos := "0011010101".toList,
          name := "D12.3".toList })],
        [((28 : Int),
          { rd_neg := "1100100101".toList, rd_pos := "0010110100".toList,
            name := "K28.0".toList })]) ∧
    pyInt2 ("1100100101".toList) = some 805 ∧
    (write_encoder_mem_files
        [((12 : Int),
          { rd_neg := "1100100101".toList, rd_pos := "0011010101".toList,
            name := "D12.3".toList })]
        [((28 : Int),
          { rd_neg := "1100100101".toList, rd_pos := "0010110100".toList,
            name := "K28.0".toList })]).map
      (fun arrs => arrs.data_rd_neg.getD 12 []) = some ("1100100101".toList) ∧
    (write_decoder_mem_files
        [((12 : Int),
          { rd_neg := "1100100101".toList, rd_pos := "0011010101".toList,
            name := "D12.3".toList })]
        [((28 : Int),
          { rd_neg := "1100100101".toList, rd_pos := "0010110100".toList,
            name := "K28.0".toList })]).map
      (fun p => p.1.getD 805 []) = some ("1100011100".toList) ∧
    ¬ (("1100011100".toList).getD 1 ' ' = '0') := by
  refine ⟨by decide, by decide, by decide, by decide, by decide⟩

/-- C1, amended: the round trip holds for an encode-array entry
(table `t`, disparity `r`, address `A`, code `C`) provided no other
record in either table carries the same 10-bit code `C` under
disparity `r`. -/
theorem c1_roundtrip_unique (d c : Dict Int CodeInfo) (t r : Bool)
    (hnd : NodupKeys d) (hnc : NodupKeys c)
    (hd : codesOk d) (hc : codesOk c)
    (hdr : keysInRange d) (hcr : keysInRange c)
    (A : Int) (info : CodeInfo)
    (hmem : (A, info) ∈ (if t then c else d))
    (C : List Char)
    (hcode : (if r then CodeInfo.rd_pos else CodeInfo.rd_neg) info = C)
    (huniq_d : ∀ kv ∈ d,
      (if r then CodeInfo.rd_pos else CodeInfo.rd_neg) kv.2 = C →
        t = false ∧ kv = (A, info))
    (huniq_c : ∀ kv ∈ c,
      (if r then CodeInfo.rd_pos else CodeInfo.rd_neg) kv.2 = C →
        t = true ∧ kv = (A, info)) :
    ∃ arrs dn dp,
      write_encoder_mem_files d c = some arrs ∧
      (if t then (if r then arrs.ctrl_rd_pos else arrs.ctrl_rd_neg)
       else (if r then arrs.data_rd_pos else arrs.data_rd_neg)).getD
          A.toNat [] = C ∧
      pyInt2 C = some ((bitsVal C : Int)) ∧
      write_decoder_mem_files d c = some (dn, dp) ∧
      (if r then dp else dn).getD (bitsVal C) [] =
        '1' :: (if t then '1' else '0') :: pyFormat08b A := by
  obtain ⟨arrs, heqE, hgetE⟩ := write_encoder_eq d c hnd hnc hdr hcr
  obtain ⟨dn, dp, heqD, _, _, hgn, hgp⟩ := write_decoder_eq d c hd hc
  have hA : 0 ≤ A ∧ A < 256 := by
    cases t with
    | false => exact hdr (A, info) hmem
    | true => exact hcr (A, info) hmem
  have hCbit : isBitStr10 C = true := by
    have hi : isBitStr10 info.rd_neg = true ∧ isBitStr10 info.rd_pos = true := by
      cases t with
      | false => exact hd (A, info) hmem
      | true => exact hc (A, info) hmem
    cases r with
    | false => rw [← show info.rd_neg = C from hcode]; exact hi.1
    | true => rw [← show info.rd_pos = C from hcode]; exact hi.2
  obtain ⟨hClen, hCbits⟩ := isBitStr10_spec hCbit
  have hCne : C ≠ [] := by
    intro hh
    rw [hh] at hClen
    cases hClen
  have hnat : ((A.toNat : Int)) = A := Int.toNat_of_nonneg hA.1
  have hlt : A.toNat < 256 := by omega
  have hgets := hgetE A.toNat hlt
  have hdget : dictGet (if t then c else d) ((A.toNat : Int)) = some info := by
    rw [hnat]
    cases t with
    | false => exact dictGet_eq_some_of_mem_nodup hnd hmem
    | true => exact dictGet_eq_some_of_mem_nodup hnc hmem
  have hslot : (if t then (if r then arrs.ctrl_rd_pos else arrs.ctrl_rd_neg)
      else (if r then arrs.data_rd_pos else arrs.data_rd_neg)).getD
        A.toNat [] = C := by
    cases t with
    | false =>
      cases r with
      | false =>
        show arrs.data_rd_neg.getD A.toNat [] = C
        rw [hgets.1, show dictGet d ((A.toNat : Int)) = some info from hdget]
        exact hcode
      | true =>
        show arrs.data_rd_pos.getD A.toNat [] = C
        rw [hgets.2.1, show dictGet d ((A.toNat : Int)) = some info from hdget]
        exact hcode
    | true =>
      cases r with
      | false =>
        show arrs.ctrl_rd_neg.getD A.toNat [] = C
        rw [hgets.2.2.1, show dictGet c ((A.toNat : Int)) = some info from hdget]
        exact hcode
      | true =>
        show arrs.ctrl_rd_pos.getD A.toNat [] = C
        rw [hgets.2.2.2, show dictGet c ((A.toNat : Int)) = some info from hdget]
        exact hcode
  have hget : (if r then dp else dn).getD (bitsVal C) [] =
      (match lastVal
          (lookupList (if r then CodeInfo.rd_pos else CodeInfo.rd_neg) true c) C with
       | some i => packEntry i
       | none =>
         match lastVal
             (lookupList (if r then CodeInfo.rd_pos else CodeInfo.rd_neg) false d) C with
         | some i => packEntry i
         | none => zeros10) := by
    cases r with
    | false => exact hgn C hCbit
    | true => exact hgp C hCbit
  have hdec : (if r then dp else dn).getD (bitsVal C) [] =
      '1' :: (if t then '1' else '0') :: pyFormat08b A := by
    cases t with
    | false =>
      have hcnone : lastVal
          (lookupList (if r then CodeInfo.rd_pos else CodeInfo.rd_neg) true c) C =
          none := by
        apply lastVal_eq_none
        intro v hv
        obtain ⟨kv', hkv', heq'⟩ := List.mem_map.mp hv
        have h1 : (if r then CodeInfo.rd_pos else CodeInfo.rd_neg) kv'.2 = C :=
          congrArg Prod.fst heq'
        exact absurd (huniq_c kv' hkv' h1).1 (by simp)
      have hdsome : lastVal
          (lookupList (if r then CodeInfo.rd_pos else CodeInfo.rd_neg) false d) C =
          some { data := A, is_control := false } := by
        apply lastVal_eq_some_of_unique
        · exact List.mem_map.mpr ⟨(A, info), hmem, by rw [hcode]⟩
        · intro kv hkv h1
          obtain ⟨kv', hkv', heq'⟩ := List.mem_map.mp hkv
          rw [← heq'] at h1 ⊢
          have h2 := (huniq_d kv' hkv'
            (show (if r then CodeInfo.rd_pos else CodeInfo.rd_neg) kv'.2 = C from h1)).2
          rw [h2, hcode]
      rw [hget, hcnone, hdsome]
      rfl
    | true =>
      have hcsome : lastVal
          (lookupList (if r then CodeInfo.rd_pos else CodeInfo.rd_neg) true c) C =
          some { data := A, is_control := true } := by
        apply lastVal_eq_some_of_unique
        · exact List.mem_map.mpr ⟨(A, info), hmem, by rw [hcode]⟩
        · intro kv hkv h1
          obtain ⟨kv', hkv', heq'⟩ := List.mem_map.mp hkv
          rw [← heq'] at h1 ⊢
          have h2 := (huniq_c kv' hkv'
            (show (if r then CodeInfo.rd_pos else CodeInfo.rd_neg) kv'.2 = C from h1)).2
          rw [h2, hcode]
      rw [hget, hcsome]
      rfl
  exact ⟨arrs, dn, dp, heqE, hslot, pyInt2_bits hCne hCbits, heqD, hdec⟩

/-- Witness for C1's amended theorem on collision-free one-entry tables,
at the spec's worked example (D12.3, address 12, code 805). -/
theorem c1_roundtrip_unique_witness :
    (((12 : Int),
      ({ rd_neg := "1100100101".toList, rd_pos := "0011010101".toList,
         name := "D12.3".toList } : CodeInfo)) ∈
        (if false then ([] : Dict Int CodeInfo)
         else [((12 : Int),
           ({ rd_neg := "1100100101".toList, rd_pos := "0011010101".toList,
              name := "D12.3".toList } : CodeInfo))])) ∧
    (∃ arrs dn dp,
      write_encoder_mem_files
          [((12 : Int),
            ({ rd_neg := "1100100101".toList, rd_pos := "0011010101".toList,
               name := "D12.3".toList } : CodeInfo))] [] = some arrs ∧
      (if false then (if false then arrs.ctrl_rd_pos else arrs.ctrl_rd_neg)
       else (if false then arrs.data_rd_pos else arrs.data_rd_neg)).getD
          (Int.toNat 12) [] = "1100100101".toList ∧
      pyInt2 ("1100100101".toList) = some ((bitsVal ("1100100101".toList) : Int)) ∧
      write_decoder_mem_files
          [((12 : Int),
            ({ rd_neg := "1100100101".toList, rd_pos := "0011010101".toList,
               name := "D12.3".toList } : CodeInfo))] [] = some (dn, dp) ∧
      (if false then dp else dn).getD (bitsVal ("1100100101".toList)) [] =
        '1' :: (if false then '1' else '0') :: pyFormat08b 12) :=
  ⟨by decide,
    c1_roundtrip_unique
      [((12 : Int),
        ({ rd_neg := "1100100101".toList, rd_pos := "0011010101".toList,
           name := "D12.3".toList } : CodeInfo))] []
      false false (by decide) (by decide) (by decide) (by decide)
      (by decide) (by decide) 12
      ({ rd_neg := "1100100101".toList, rd_pos := "0011010101".toList,
         name := "D12.3".toList } : CodeInfo) (by decide)
      ("1100100101".toList) (by decide) (by decide) (by decide)⟩

/-! ## Serializer: the line structure of the written artifacts -/

theorem splitNl_cons (c : Char) (rest : List Char) :
    splitNl (c :: rest) =
      (if c = '\n' then [] :: splitNl rest
       else
         match splitNl rest with
         | [] => [[c]]
         | h :: t => (c :: h) :: t) := rfl

theorem splitNl_append {a : List Char} (ha : ¬ '\n' ∈ a) (b : List Char) :
    splitNl (a ++ '\n' :: b) = a :: splitNl b := by
  induction a with
  | nil =>
    rw [List.nil_append, splitNl_cons, if_pos rfl]
  | cons c a' ih =>
    have hc : ¬ c = '\n' := by
      intro hh
      exact ha (by rw [hh]; exact List.mem_cons_self _ _)
    have ha' : ¬ '\n' ∈ a' := fun hh => ha (List.mem_cons_of_mem _ hh)
    rw [List.cons_append, splitNl_cons, if_neg hc, ih ha']

theorem splitNl_joinNl (arr : List (List Char))
    (h : ∀ e ∈ arr, ¬ '\n' ∈ e) :
    splitNl (joinNl arr) = arr ++ [[]] := by
  induction arr with
  | nil => rfl
  | cons e rest ih =>
    rw [show joinNl (e :: rest) = e ++ '\n' :: joinNl rest from rfl,
      splitNl_append (h e (List.mem_cons_self _ _)),
      ih (fun x hx => h x (List.mem_cons_of_mem _ hx))]
    simp

theorem fileLines_enc (name : List Char) (arr : List (List Char))
    (hn : ¬ '\n' ∈ name) (h : ∀ e ∈ arr, ¬ '\n' ∈ e) :
    fileLines (encFileContent name arr) =
      ("// ".toList ++ name ++
        " - Generated from 8b_10b_code_groups_pcs.txt".toList) ::
      ("// Format: 10-bit binary code groups".toList) :: [] :: arr := by
  have hline1 : ¬ '\n' ∈ ("// ".toList ++ name ++
      " - Generated from 8b_10b_code_groups_pcs.txt".toList) := by
    simp only [List.mem_append]
    rintro ((hh | hh) | hh)
    · revert hh; decide
    · exact hn hh
    · revert hh; decide
  have hline2 : ¬ '\n' ∈ ("// Format: 10-bit binary code groups".toList) := by
    decide
  have hcontent : encFileContent name arr =
      ("// ".toList ++ name ++
        " - Generated from 8b_10b_code_groups_pcs.txt".toList) ++
      '\n' :: ("// Format: 10-bit binary code groups".toList ++
        '\n' :: '\n' :: joinNl arr) := by
    unfold encFileContent
    rw [show " - Generated from 8b_10b_code_groups_pcs.txt\n".toList =
        " - Generated from 8b_10b_code_groups_pcs.txt".toList ++ ['\n'] from rfl,
      show "// Format: 10-bit binary code groups\n\n".toList =
        "// Format: 10-bit binary code groups".toList ++ ['\n', '\n'] from rfl]
    simp [List.append_assoc]
  rw [fileLines, hcontent, splitNl_append hline1, splitNl_append hline2,
    splitNl_cons, if_pos rfl, splitNl_joinNl arr h]
  rw [show (("// ".toList ++ name ++
      " - Generated from 8b_10b_code_groups_pcs.txt".toList) ::
      ("// Format: 10-bit binary code groups".toList) :: [] :: (arr ++ [[]])) =
    ((("// ".toList ++ name ++
      " - Generated from 8b_10b_code_groups_pcs.txt".toList) ::
      ("// Format: 10-bit binary code groups".toList) :: [] :: arr) ++ [[]])
    from by simp]
  exact List.dropLast_concat

theorem fileLines_dec (name : List Char) (arr : List (List Char))
    (hn : ¬ '\n' ∈ name) (h : ∀ e ∈ arr, ¬ '\n' ∈ e) :
    fileLines (decFileContent name arr) =
      ("// ".toList ++ name ++
        " - Generated from 8b_10b_code_groups_pcs.txt".toList) ::
      ("// Format: \x7bvalid_bit, control_bit, 8bit_data\x7d".toList) ::
      ("// Address range: 0-1023 (10-bit code group value)".toList) :: [] :: arr := by
  have hline1 : ¬ '\n' ∈ ("// ".toList ++ name ++
      " - Generated from 8b_10b_code_groups_pcs.txt".toList) := by
    simp only [List.mem_append]
    rintro ((hh | hh) | hh)
    · revert hh; decide
    · exact hn hh
    · revert hh; decide
  have hline2 : ¬ '\n' ∈ ("// Format: \x7bvalid_bit, control_bit, 8bit_data\x7d".toList) := by
    decide
  have hline3 : ¬ '\n' ∈ ("// Address range: 0-1023 (10-bit code group value)".toList) := by
    decide
  have hcontent : decFileContent name arr =
      ("// ".toList ++ name ++
        " - Generated from 8b_10b_code_groups_pcs.txt".toList) ++
      '\n' :: ("// Format: \x7bvalid_bit, control_bit, 8bit_data\x7d".toList ++
        '\n' :: ("// Address range: 0-1023 (10-bit code group value)".toList ++
          '\n' :: '\n' :: joinNl arr)) := by
    unfold decFileContent
    rw [show " - Generated from 8b_10b_code_groups_pcs.txt\n".toList =
        " - Generated from 8b_10b_code_groups_pcs.txt".toList ++ ['\n'] from rfl,
      show "// Format: \x7bvalid_bit, control_bit, 8bit_data\x7d\n".toList =
        "// Format: \x7bvalid_bit, control_bit, 8bit_data\x7d".toList ++ ['\n'] from rfl,
      show "// Address range: 0-1023 (10-bit code group value)\n\n".toList =
        "// Address range: 0-1023 (10-bit code group value)".toList ++ ['\n', '\n'] from rfl]
    simp [List.append_assoc]
  rw [fileLines, hcontent, splitNl_append hline1, splitNl_append hline2,
    splitNl_append hline3, splitNl_cons, if_pos rfl, splitNl_joinNl arr h]
  rw [show (("// ".toList ++ name ++
      " - Generated from 8b_10b_code_groups_pcs.txt".toList) ::
      ("// Format: \x7bvalid_bit, control_bit, 8bit_data\x7d".toList) ::
      ("// Address range: 0-1023 (10-bit code group value)".toList) ::
      [] :: (arr ++ [[]])) =
    ((("// ".toList ++ name ++
      " - Generated from 8b_10b_code_groups_pcs.txt".toList) ::
      ("// Format: \x7bvalid_bit, control_bit, 8bit_data\x7d".toList) ::
      ("// Address range: 0-1023 (10-bit code group value)".toList) ::
      [] :: arr) ++ [[]])
    from by simp]
  exact List.dropLast_concat

/-! ## Claim C6 -/

/-- Counterexample to C6 as stated: a decode artifact has 1028 lines
(3 header comment lines + 1 blank line + 1024 data lines), not the
2 + 1024 = 1026 a 2-line header comment followed by the data lines
would give. -/
theorem c6_counterexample :
    (fileLines (decFileContent ("decode_table_rd_neg.mem".toList)
        (List.replicate 1024 zeros10))).length = 1028 ∧
    (1028 : Nat) ≠ 2 + 1024 := by
  constructor
  · rw [fileLines_dec _ _ (by decide)
      (fun e he => by rw [List.eq_of_mem_replicate he]; decide)]
    simp
  · decide

/-- C6, amended: every encoder artifact is 2 header comment lines, one
blank line, then its 256 entries, one per line in ascending address
order with nothing after the entry; every decoder artifact is 3 header
comment lines, one blank line, then its 1024 entries likewise. -/
theorem c6_artifact_layout (name : List Char) (arr : List (List Char))
    (hn : ¬ '\n' ∈ name) (h : ∀ e ∈ arr, ¬ '\n' ∈ e) :
    (fileLines (encFileContent name arr) =
        ("// ".toList ++ name ++
          " - Generated from 8b_10b_code_groups_pcs.txt".toList) ::
        ("// Format: 10-bit binary code groups".toList) :: [] :: arr ∧
      (fileLines (encFileContent name arr)).length = 3 + arr.length ∧
      ∀ i : Nat, (fileLines (encFileContent name arr)).getD (i + 3) [] =
        arr.getD i []) ∧
    (fileLines (decFileContent name arr) =
        ("// ".toList ++ name ++
          " - Generated from 8b_10b_code_groups_pcs.txt".toList) ::
        ("// Format: \x7bvalid_bit, control_bit, 8bit_data\x7d".toList) ::
        ("// Address range: 0-1023 (10-bit code group value)".toList) ::
        [] :: arr ∧
      (fileLines (decFileContent name arr)).length = 4 + arr.length ∧
      ∀ i : Nat, (fileLines (decFileContent name arr)).getD (i + 4) [] =
        arr.getD i []) := by
  refine ⟨⟨fileLines_enc name arr hn h, ?_, ?_⟩,
    ⟨fileLines_dec name arr hn h, ?_, ?_⟩⟩
  · rw [fileLines_enc name arr hn h]
    simp
    omega
  · intro i
    rw [fileLines_enc name arr hn h]
    rfl
  · rw [fileLines_dec name arr hn h]
    simp
    omega
  · intro i
    rw [fileLines_dec name arr hn h]
    rfl

/-- Witness for C6's amended theorem on a two-entry array. -/
theorem c6_artifact_layout_witness :
    (¬ '\n' ∈ ("data_table_rd_neg.mem".toList)) ∧
    (∀ e ∈ [zeros10, zeros10], ¬ '\n' ∈ e) ∧
    ((fileLines (encFileContent ("data_table_rd_neg.mem".toList)
        [zeros10, zeros10])).length = 3 + 2 ∧
     (fileLines (decFileContent ("data_table_rd_neg.mem".toList)
        [zeros10, zeros10])).length = 4 + 2) :=
  ⟨by decide, by decide,
    ⟨((c6_artifact_layout ("data_table_rd_neg.mem".toList) [zeros10, zeros10]
        (by decide) (by decide)).1.2.1.trans (by decide)),
     ((c6_artifact_layout ("data_table_rd_neg.mem".toList) [zeros10, zeros10]
        (by decide) (by decide)).2.2.1.trans (by decide))⟩⟩

/-! ## Claim C2 -/

/-- C2 fails on the code: for the input line
`D12.3 0C 1_0010 0101 001101 0101`, whose disparity field `1_0010` is
not a bit-string, the parse succeeds and stores the corrupt code
`1_00100101`; the run completes with no reported failure, writing all
six artifacts; the corrupt code is the data line at address 12 of
`data_table_rd_neg.mem`; and the decoder stage accepts the corrupt code
too, because `int('1_00100101', 2)` parses (Python underscore rule) to
293 and a decode entry is written there. -/
theorem c2_corrupt_disparity_propagates :
    parse_code_groups_file underscoreInput =
      some ([((12 : Int),
        { rd_neg := "1_00100101".toList, rd_pos := "0011010101".toList,
          name := "D12.3".toList })], []) ∧
    isBitStr10 ("1_00100101".toList) = false ∧
    pyInt2 ("1_00100101".toList) = some 293 ∧
    (runFiles underscoreInput).2 = true ∧
    (runFiles underscoreInput).1.length = 6 ∧
    (fileLines ((runFiles underscoreInput).1.getD 0 ([], [])).2).getD (12 + 3) [] =
      "1_00100101".toList ∧
    (write_decoder_mem_files
        [((12 : Int),
          { rd_neg := "1_00100101".toList, rd_pos := "0011010101".toList,
            name := "D12.3".toList })] []).map
      (fun p => p.1.getD 293 []) = some ("1000001100".toList) := by
  refine ⟨by decide, by decide, by decide, by decide, by decide, by decide, by decide⟩

/-! ## Claim C10 -/

/-- C10: the input line `D00.0 -1 110010 0101 001101 0101` parses (the
base-16 conversion accepts the leading minus sign) and stores key -1
with -256 ≤ -1 ≤ -1; the encoder materializer does not fail, and the
record's negative-disparity code lands at array address 255 = 256 + (-1)
via negative indexing — an address the record never named (255 is not a
key of the table). -/
theorem c10_negative_index_write :
    pyInt16 ("-1".toList) = some (-1) ∧
    ((-256 : Int) ≤ -1 ∧ (-1 : Int) ≤ -1) ∧
    parse_code_groups_file negOctetInput =
      some ([((-1 : Int),
        { rd_neg := "1100100101".toList, rd_pos := "0011010101".toList,
          name := "D00.0".toList })], []) ∧
    (write_encoder_mem_files
        [((-1 : Int),
          { rd_neg := "1100100101".toList, rd_pos := "0011010101".toList,
            name := "D00.0".toList })] []).map
      (fun arrs => arrs.data_rd_neg.getD 255 []) = some ("1100100101".toList) ∧
    (255 : Int) = 256 + (-1) ∧
    dictGet [((-1 : Int),
      ({ rd_neg := "1100100101".toList, rd_pos := "0011010101".toList,
         name := "D00.0".toList } : CodeInfo))] 255 = none := by
  refine ⟨by decide, by decide, by decide, by decide, by decide, by decide⟩

end Gen8b10b

